import Mathlib

/-!
# Verification of the metrics-extraction and validation pipeline

Shallow embedding of the text-to-structured-data pipeline of the repository:
the numeric normalizer (`_safe_int_enhanced`, `_safe_float`), the field
validator (`_validate_and_clean_metrics_enhanced`), the heuristic prefilter
(`_quick_metrics_check`), date validation (`_validate_date`), the empty-record
constructor, the message-processing control flow, and the JSON brace-block
fallback of the contract parser (`extract_json_block`).

Modelling conventions:
- Python strings are `List Char` (`Str`); Python floats are exact rationals
  (`ℚ`), with `int(...)` as truncation toward zero; Python ints are `ℤ`.
- JSON-shaped dynamic values that can sit in a numeric slot are `PyVal`
  (null / int / float / str / bool).
- `datetime.now()` is an explicit `Date` parameter `now`; `timedelta`
  subtraction is explicit calendar arithmetic, returning `none` where Python
  would raise `OverflowError` (below `datetime.min`).
- The language-model calls are oracles: a parameter carries the reply
  (or the parse-failure / exception outcome).
-/

namespace Pipeline

abbrev Str := List Char

/-- Shorthand turning a string literal into the `List Char` the model works on. -/
def S (s : String) : Str := s.data

/-! ## Character-level utilities (Python `str` semantics, ASCII fragment) -/

/-- ASCII decimal digit test (Python `\d` / `str.isdigit` on ASCII). -/
def isDigitCh (c : Char) : Bool := 48 ≤ c.toNat && c.toNat ≤ 57

/-- Python whitespace for `str.strip` and the regex class `\s`. -/
def isPyWs (c : Char) : Bool :=
  c.toNat = 32 || c.toNat = 9 || c.toNat = 10 || c.toNat = 11 || c.toNat = 12 || c.toNat = 13

/-- Python `str.lower` on one ASCII character. -/
def lowerChar (c : Char) : Char :=
  if 65 ≤ c.toNat && c.toNat ≤ 90 then Char.ofNat (c.toNat + 32) else c

/-- Python `str.lower` (ASCII fragment). -/
def pyLower (l : Str) : Str := l.map lowerChar

/-- Python `str.strip()`: drop leading and trailing whitespace. -/
def trimWs (l : Str) : Str :=
  ((l.dropWhile isPyWs).reverse.dropWhile isPyWs).reverse

/-- `startsWithL pat l`: `l` begins with `pat`. -/
def startsWithL : Str → Str → Bool
  | [], _ => true
  | _ :: _, [] => false
  | p :: ps, x :: xs => p = x && startsWithL ps xs

/-- Python `pat in l` (substring containment) for a nonempty pattern. -/
def isSubstr (pat : Str) : Str → Bool
  | [] => startsWithL pat []
  | x :: xs => startsWithL pat (x :: xs) || isSubstr pat xs

/-- Last character of a list, if any. -/
def lastChar? : Str → Option Char
  | [] => none
  | [x] => some x
  | _ :: x :: xs => lastChar? (x :: xs)

/-- Python `s.endswith(c)` for a single character. -/
def endsWithChar (l : Str) (c : Char) : Bool :=
  match lastChar? l with
  | some x => x = c
  | none => false

/-- Split a list at every occurrence of the separator character
(`str.split(sep)` semantics: `n` separators produce `n+1` pieces). -/
def splitOnChar (c : Char) : Str → List Str
  | [] => [[]]
  | x :: xs =>
    let r := splitOnChar c xs
    if x = c then [] :: r
    else
      match r with
      | h :: t => (x :: h) :: t
      | [] => [[x]]

/-! ## Decimal digits and numerals -/

/-- The decimal digit character for a value `0`–`9`. -/
def digitChar : ℕ → Char
  | 0 => '0' | 1 => '1' | 2 => '2' | 3 => '3' | 4 => '4'
  | 5 => '5' | 6 => '6' | 7 => '7' | 8 => '8' | _ => '9'

/-- Numeric value of a digit character. -/
def digitVal (c : Char) : ℕ := c.toNat - 48

/-- Value of a digit string (most significant first); leading zeros are fine. -/
def natVal (l : Str) : ℕ := l.foldl (fun a c => a * 10 + digitVal c) 0

/-- Decimal digit list of a natural number (no leading zeros except for `0`). -/
def natDigits (n : ℕ) : Str :=
  if _h : n < 10 then [digitChar n]
  else natDigits (n / 10) ++ [digitChar (n % 10)]
decreasing_by exact Nat.div_lt_self (by omega) (by omega)

/-- Zero-pad the decimal digits of `n` on the left to width `w`. -/
def padNum (w n : ℕ) : Str :=
  List.replicate (w - (natDigits n).length) '0' ++ natDigits n

/-! ## Python dynamic values in numeric slots -/

/-- A JSON-shaped Python value that can appear in a numeric field of the model
reply: `None`, `int`, `float` (modelled exactly as a rational), `str`, `bool`. -/
inductive PyVal where
  | none
  | int (n : ℤ)
  | float (q : ℚ)
  | str (s : Str)
  | bool (b : Bool)
deriving DecidableEq, Repr

/-- Python truthiness of a `PyVal` (`bool(v)`). -/
def pyTruthy : PyVal → Bool
  | .none => false
  | .int n => n ≠ 0
  | .float q => q ≠ 0
  | .str s => s ≠ []
  | .bool b => b

/-- Numeric content of a `PyVal`, as a rational (junk on non-numeric values). -/
def pyToRat : PyVal → ℚ
  | .int n => (n : ℚ)
  | .float q => q
  | .bool b => if b then 1 else 0
  | _ => 0

/-- Python `int(x)` on a float: truncation toward zero. -/
def truncRat (q : ℚ) : ℤ := if 0 ≤ q then ⌊q⌋ else -⌊-q⌋

/-! ## Python `float(...)` on strings (decimal fragment)

The embedding covers sign, integer/fractional digits and an optional decimal
exponent — the forms the pipeline's inputs take.  (`inf`/`nan`/underscore
separators of CPython's full grammar are outside the modelled fragment.) -/

/-- Unsigned decimal: `digits`, `digits.digits?`, or `.digits`, valued in `ℚ`. -/
def udecVal? (l : Str) : Option ℚ :=
  match l.dropWhile isDigitCh with
  | [] =>
    if l.takeWhile isDigitCh = [] then none
    else some (natVal (l.takeWhile isDigitCh) : ℚ)
  | c :: fp =>
    if c = '.' && fp.all isDigitCh && (l.takeWhile isDigitCh ≠ [] || fp ≠ []) then
      some ((natVal (l.takeWhile isDigitCh) : ℚ) + (natVal fp : ℚ) / (10 : ℚ) ^ fp.length)
    else none

/-- Signed decimal (no exponent, no surrounding whitespace). -/
def decValue? (l : Str) : Option ℚ :=
  match l with
  | [] => none
  | c :: r =>
    if c = '-' then (udecVal? r).map (fun q => -q)
    else if c = '+' then udecVal? r
    else udecVal? (c :: r)

/-- A signed decimal integer (for exponents). -/
def intValue? (l : Str) : Option ℤ :=
  match l with
  | [] => none
  | c :: r =>
    if c = '-' then (if r ≠ [] && r.all isDigitCh then some (-(natVal r : ℤ)) else none)
    else if c = '+' then (if r ≠ [] && r.all isDigitCh then some (natVal r : ℤ) else none)
    else if (c :: r).all isDigitCh then some (natVal (c :: r) : ℤ)
    else none

/-- Split at the first `e`/`E`, if any (the exponent marker of a float literal). -/
def splitExp : Str → Option (Str × Str)
  | [] => Option.none
  | c :: cs =>
    if c = 'e' || c = 'E' then some ([], cs)
    else (splitExp cs).map (fun p => (c :: p.1, p.2))

/-- Python `float(s)` on the decimal fragment: strip whitespace, optional sign,
mantissa, optional `e`-exponent. `none` models `ValueError`. -/
def pyFloat? (l : Str) : Option ℚ :=
  match splitExp (trimWs l) with
  | Option.none => decValue? (trimWs l)
  | some (m, e) => do
    let qm ← decValue? m
    let ex ← intValue? e
    pure (qm * (10 : ℚ) ^ ex)

/-! ## `_safe_int_enhanced` and `_safe_float` (openai_helper.py) -/

/-- `OpenAIHelper._safe_int_enhanced`: enhanced integer parsing for social-media
numbers.  `None` for `None`; strings are lowercased and stripped, a trailing
`k`/`m` multiplies the prefix float by 1 000 / 1 000 000 before `int`-truncation,
otherwise every character except digits and dots is removed and the remainder is
parsed; numeric values go through `int(value)`; any parse error yields `None`. -/
def safe_int_enhanced : PyVal → Option ℤ
  | .none => none
  | .str s =>
    if endsWithChar (trimWs (pyLower s)) 'k' then
      (pyFloat? (trimWs (pyLower s)).dropLast).map (fun q => truncRat (q * 1000))
    else if endsWithChar (trimWs (pyLower s)) 'm' then
      (pyFloat? (trimWs (pyLower s)).dropLast).map (fun q => truncRat (q * 1000000))
    else
      if ((trimWs (pyLower s)).filter (fun c => isDigitCh c || c = '.')).contains '.' then
        (pyFloat? ((trimWs (pyLower s)).filter (fun c => isDigitCh c || c = '.'))).map truncRat
      else if (trimWs (pyLower s)).filter (fun c => isDigitCh c || c = '.') = [] then none
      else some (natVal ((trimWs (pyLower s)).filter (fun c => isDigitCh c || c = '.')) : ℤ)
  | .int n => some n
  | .float q => some (truncRat q)
  | .bool b => some (if b then 1 else 0)

/-- `OpenAIHelper._safe_float`: `None` for `None`; strings lose every `%` and
`,`, are stripped, and go through `float(...)`; numeric values pass through. -/
def safe_float : PyVal → Option ℚ
  | .none => none
  | .str s =>
    let clean := trimWs (s.filter (fun c => c ≠ '%' && c ≠ ','))
    if clean = [] then none else pyFloat? clean
  | .int n => some (n : ℚ)
  | .float q => some q
  | .bool b => some (if b then 1 else 0)

/-- Repack an optional integer the way the validator stores it back in a field. -/
def pyOfInt? : Option ℤ → PyVal
  | some n => .int n
  | none => .none

/-- Repack an optional float the way the validator stores it back in a field. -/
def pyOfRat? : Option ℚ → PyVal
  | some q => .float q
  | none => .none

/-! ## Calendar dates and `_validate_date`

`datetime.now()` becomes an explicit parameter `now : Date`; `strftime` /
`strptime` on the five patterns of the source become formatting and pattern
functions; `timedelta` subtraction is day-by-day calendar arithmetic that
returns `none` where Python raises `OverflowError` (below `datetime.min`). -/

/-- A calendar date (proleptic Gregorian), as `datetime` holds it. -/
structure Date where
  y : ℕ
  m : ℕ
  d : ℕ
deriving DecidableEq, Repr

/-- Gregorian leap-year rule. -/
def isLeap (y : ℕ) : Bool := (y % 4 = 0 && y % 100 ≠ 0) || y % 400 = 0

/-- Days in a month (month `1`–`12`). -/
def daysInMonth (y m : ℕ) : ℕ :=
  if m = 2 then (if isLeap y then 29 else 28)
  else if m = 4 || m = 6 || m = 9 || m = 11 then 30
  else 31

/-- A date `datetime` accepts: year `1`–`9999`, valid month and day. -/
def validDateB (dt : Date) : Bool :=
  1 ≤ dt.y && dt.y ≤ 9999 && 1 ≤ dt.m && dt.m ≤ 12 && 1 ≤ dt.d && dt.d ≤ daysInMonth dt.y dt.m

/-- `strftime('%Y-%m-%d')` (the model zero-pads the year to four digits). -/
def fmtDate (dt : Date) : Str :=
  padNum 4 dt.y ++ '-' :: (padNum 2 dt.m ++ '-' :: padNum 2 dt.d)

/-- One `timedelta(days=1)` step backwards; `none` below `datetime.min`. -/
def subDay? (dt : Date) : Option Date :=
  if 1 < dt.d then some ⟨dt.y, dt.m, dt.d - 1⟩
  else if 1 < dt.m then some ⟨dt.y, dt.m - 1, daysInMonth dt.y (dt.m - 1)⟩
  else if 1 < dt.y then some ⟨dt.y - 1, 12, 31⟩
  else none

/-- `dt - timedelta(days=n)`; `none` models `OverflowError`. -/
def subDays? (dt : Date) : ℕ → Option Date
  | 0 => some dt
  | n + 1 => (subDay? dt).bind (fun d => subDays? d n)

/-- A digit run of bounded length read as a number (`strptime` matches at most
`cap` digits for the directive). -/
def readBounded (cap : ℕ) (l : Str) : Option ℕ :=
  if l ≠ [] && l.length ≤ cap && l.all isDigitCh then some (natVal l) else none

/-- Shared range validation of `strptime`-built dates. -/
def mkDate? (y m d : ℕ) : Option Date :=
  if 1 ≤ y && y ≤ 9999 && 1 ≤ m && m ≤ 12 && 1 ≤ d && d ≤ daysInMonth y m then
    some ⟨y, m, d⟩
  else none

/-- `strptime(s, '%Y-%m-%d')`. -/
def parseYmd? (l : Str) : Option Date :=
  match splitOnChar '-' l with
  | [ys, ms, ds] => do
    let y ← readBounded 4 ys
    let m ← readBounded 2 ms
    let d ← readBounded 2 ds
    mkDate? y m d
  | _ => none

/-- `strptime(s, '%d/%m/%Y')`. -/
def parseDmySlash? (l : Str) : Option Date :=
  match splitOnChar '/' l with
  | [ds, ms, ys] => do
    let d ← readBounded 2 ds
    let m ← readBounded 2 ms
    let y ← readBounded 4 ys
    mkDate? y m d
  | _ => none

/-- `strptime(s, '%m/%d/%Y')`. -/
def parseMdySlash? (l : Str) : Option Date :=
  match splitOnChar '/' l with
  | [ms, ds, ys] => do
    let m ← readBounded 2 ms
    let d ← readBounded 2 ds
    let y ← readBounded 4 ys
    mkDate? y m d
  | _ => none

/-- A `%H:%M:%S` time-of-day; the date part is what the pipeline keeps. -/
def validTime? (l : Str) : Option Unit :=
  match splitOnChar ':' l with
  | [hs, ms, ss] => do
    let h ← readBounded 2 hs
    let mi ← readBounded 2 ms
    let s ← readBounded 2 ss
    if h ≤ 23 && mi ≤ 59 && s ≤ 59 then some () else none
  | _ => none

/-- `strptime(s, '%Y-%m-%d %H:%M:%S')`, keeping the date. -/
def parseYmdHms? (l : Str) : Option Date :=
  match splitOnChar ' ' l with
  | [ds, ts] => do
    let dt ← parseYmd? ds
    let _ ← validTime? ts
    pure dt
  | _ => none

/-- `strptime(s, '%d-%m-%Y')`. -/
def parseDmyDash? (l : Str) : Option Date :=
  match splitOnChar '-' l with
  | [ds, ms, ys] => do
    let d ← readBounded 2 ds
    let m ← readBounded 2 ms
    let y ← readBounded 4 ys
    mkDate? y m d
  | _ => none

/-- The source's five date patterns, tried in order. -/
def tryDatePatterns (l : Str) : Option Date :=
  (parseYmd? l).orElse fun _ =>
  (parseDmySlash? l).orElse fun _ =>
  (parseMdySlash? l).orElse fun _ =>
  (parseYmdHms? l).orElse fun _ =>
  parseDmyDash? l

/-- First maximal digit run in a string, as a number (`re.search(r'(\d+)', s)`). -/
def firstNat? : Str → Option ℕ
  | [] => none
  | c :: cs =>
    if isDigitCh c then some (natVal ((c :: cs).takeWhile isDigitCh))
    else firstNat? cs

/-- Format the result of a `timedelta` subtraction; an overflow is caught by the
source's `except` and falls back to today. -/
def fmtSub (now : Date) (o : Option Date) : Str :=
  match o with
  | some dt => fmtDate dt
  | none => fmtDate now

/-- `OpenAIHelper._validate_date`: empty or missing dates become today;
`yesterday` / `<N> day(s) ago` / `<N> week(s) ago` subtract from today; else the
five absolute patterns are tried in order; anything else becomes today. -/
def validate_date (now : Date) (ds? : Option Str) : Str :=
  match ds? with
  | none => fmtDate now
  | some ds =>
    if ds = [] then fmtDate now
    else
      let dl := pyLower ds
      let rel : Option Str :=
        if isSubstr (S "ago") dl || isSubstr (S "yesterday") dl then
          if isSubstr (S "yesterday") dl then some (fmtSub now (subDays? now 1))
          else if isSubstr (S "day") dl then
            (firstNat? ds).map (fun n => fmtSub now (subDays? now n))
          else if isSubstr (S "week") dl then
            (firstNat? ds).map (fun n => fmtSub now (subDays? now (7 * n)))
          else none
        else none
      match rel with
      | some r => r
      | none =>
        match tryDatePatterns ds with
        | some dt => fmtDate dt
        | none => fmtDate now

/-! ## `_validate_media_type` -/

/-- `OpenAIHelper._validate_media_type`: lowercase, keep the four canonical
types, map common variations, default to `photo`. -/
def validate_media_type (mt : Option Str) : Str :=
  match mt with
  | none => S "photo"
  | some s =>
    if s = [] then S "photo"
    else
      let t := pyLower s
      if t = S "photo" || t = S "video" || t = S "reel" || t = S "carousel" then t
      else if t = S "image" || t = S "pic" || t = S "picture" then S "photo"
      else if t = S "vid" || t = S "clip" then S "video"
      else if t = S "story" || t = S "stories" then S "reel"
      else if t = S "slide" || t = S "slides" || t = S "swipe" then S "carousel"
      else S "photo"

/-! ## Candidate records and `_validate_and_clean_metrics_enhanced`

The model reply, after `json.loads`, is a dict.  The fields the validator
touches are modelled explicitly: `Option` distinguishes an absent key (or, for
strings, a JSON `null`) from a present value; numeric slots are `PyVal`. -/

/-- One entry of `recent_posts` as the model may return it. -/
structure RawPost where
  post_id : Option Str
  url : Option Str
  media_type : Option Str
  likes : PyVal
  comments : PyVal
  post_date : Option Str
  views : PyVal
  reach : PyVal
  impressions : PyVal
  shares : PyVal
  completeness_score : Option PyVal
deriving DecidableEq, Repr

/-- The candidate metrics record (and the validator's output shape). -/
structure RawData where
  has_metrics : Bool
  influencer_name : Option Str
  data_quality_score : Option PyVal
  extraction_confidence : Option PyVal
  missing_data_points : Option (List Str)
  data_source_reliability : Option Str
  recent_posts : Option (List RawPost)
  followers_count : PyVal
  following_count : PyVal
  posts_count : PyVal
  avg_likes_per_post : PyVal
  avg_comments_per_post : PyVal
  engagement_rate : PyVal
deriving DecidableEq, Repr

/-- A character the post-id capture group `[A-Za-z0-9_-]` accepts. -/
def isIdCh (c : Char) : Bool :=
  (65 ≤ c.toNat && c.toNat ≤ 90) || (97 ≤ c.toNat && c.toNat ≤ 122) ||
  isDigitCh c || c = '_' || c = '-'

/-- `re.search(r'/p/([A-Za-z0-9_-]+)/', url)`: the first `/p/<id>/` fragment. -/
def extractIdFromUrl : Str → Option Str
  | [] => none
  | c :: cs =>
    if startsWithL (S "/p/") (c :: cs) then
      let rest := cs.drop 2
      let idp := rest.takeWhile isIdCh
      match idp, rest.dropWhile isIdCh with
      | _ :: _, '/' :: _ => some idp
      | _, _ => extractIdFromUrl cs
    else extractIdFromUrl cs

/-- The synthesized post id `post_{i+1}` for the post at index `i`. -/
def defaultPid (i : ℕ) : Str := S "post_" ++ natDigits (i + 1)

/-- The synthesized URL `https://instagram.com/{username}/p/post_{i+1}`. -/
def defaultUrl (u : Str) (i : ℕ) : Str :=
  S "https://instagram.com/" ++ u ++ S "/p/post_" ++ natDigits (i + 1)

/-- A falsy Python string slot: missing, `null`, or the empty string. -/
def strFalsy : Option Str → Bool
  | none => true
  | some s => s = []

/-- The post-id repair of the loop body: when the given id is falsy and a URL
is present, try the Instagram URL pattern. -/
def cleanPid (purl : Str) (pid0 : Option Str) : Option Str :=
  if strFalsy pid0 then
    if purl ≠ [] then
      match extractIdFromUrl purl with
      | some idp => some idp
      | none => pid0
    else pid0
  else pid0

/-- Cleaning of a single `recent_posts` entry at index `i` (the loop body of
`_validate_and_clean_metrics_enhanced`): derive `post_id` from the URL when
absent, synthesize id and URL placeholders, normalize media type, numbers and
the post date, and default the completeness score. -/
def cleanPost (now : Date) (u : Str) (i : ℕ) (p : RawPost) : RawPost :=
  let purl := p.url.getD []
  let pid1 : Option Str := cleanPid purl p.post_id
  { post_id := some (if strFalsy pid1 then defaultPid i else pid1.getD [])
    url := some (if purl = [] then defaultUrl u i else purl)
    media_type := some (validate_media_type p.media_type)
    likes := pyOfInt? (safe_int_enhanced p.likes)
    comments := pyOfInt? (safe_int_enhanced p.comments)
    post_date := some (validate_date now p.post_date)
    views := pyOfInt? (safe_int_enhanced p.views)
    reach := pyOfInt? (safe_int_enhanced p.reach)
    impressions := pyOfInt? (safe_int_enhanced p.impressions)
    shares := pyOfInt? (safe_int_enhanced p.shares)
    completeness_score := some (p.completeness_score.getD (.float (1/2))) }

/-- The `enumerate`-indexed cleaning loop over `recent_posts`. -/
def cleanPosts (now : Date) (u : Str) : ℕ → List RawPost → List RawPost
  | _, [] => []
  | i, p :: ps => cleanPost now u i p :: cleanPosts now u (i + 1) ps

/-- The integer values of a field over cleaned posts, nulls excluded
(`[p[f] for p in posts if p[f] is not None]`). -/
def nonNullInts (vs : List PyVal) : List ℤ :=
  vs.filterMap (fun v => match v with | .int n => some n | _ => none)

/-- `int(sum(xs) / len(xs))`: float mean, truncated toward zero. -/
def truncMean (xs : List ℤ) : ℤ :=
  truncRat ((xs.sum : ℚ) / (xs.length : ℚ))

/-- Python `round(x, 2)` on exact rationals: round half to even at the second
decimal place. -/
def round2 (q : ℚ) : ℚ :=
  ((if q * 100 - ⌊q * 100⌋ < 1/2 then ⌊q * 100⌋
    else if q * 100 - ⌊q * 100⌋ > 1/2 then ⌊q * 100⌋ + 1
    else if ⌊q * 100⌋ % 2 = 0 then ⌊q * 100⌋ else ⌊q * 100⌋ + 1 : ℤ) : ℚ) / 100

/-- A falsy influencer-name slot as the validator tests it. -/
def nameNeedsFix (o : Option Str) : Bool :=
  strFalsy o || o = some (S "unknown")

/-- The `recent_posts` stage of the validator: clean every entry when the list
is present and truthy, else the empty list. -/
def cleanedPosts (now : Date) (u : Str) : Option (List RawPost) → List RawPost
  | some l => if l = [] then [] else cleanPosts now u 0 l
  | none => []

/-- Reparse an aggregate integer slot and store it back. -/
def recleanInt (v : PyVal) : PyVal := pyOfInt? (safe_int_enhanced v)

/-- Reparse the engagement-rate slot and store it back. -/
def recleanFloat (v : PyVal) : PyVal := pyOfRat? (safe_float v)

/-- The missing-average derivation: when posts exist and the aggregate is
falsy, the truncated mean of the non-null per-post values (when any). -/
def derivedAvg (posts : List RawPost) (f : RawPost → PyVal) (a0 : PyVal) : PyVal :=
  if posts ≠ [] && !pyTruthy a0 then
    match nonNullInts (posts.map f) with
    | [] => a0
    | vs => .int (truncMean vs)
  else a0

/-- The engagement-rate derivation: when the averages and follower count are
truthy and the rate is falsy, `round(((likes+comments)/followers)*100, 2)`. -/
def derivedEngagement (al ac fc er0 : PyVal) : PyVal :=
  if pyTruthy al && pyTruthy ac && pyTruthy fc && !pyTruthy er0 then
    .float (round2 ((pyToRat al + pyToRat ac) / pyToRat fc * 100))
  else er0

/-- `OpenAIHelper._validate_and_clean_metrics_enhanced`: coerce `has_metrics`,
fix the influencer name, default the quality fields, clean every post, reparse
the aggregate numbers, then derive missing averages and the engagement rate
from the cleaned posts (Python truthiness guards throughout). -/
def validate_and_clean_metrics_enhanced (now : Date) (d : RawData) (u : Str) : RawData :=
  let posts := cleanedPosts now u d.recent_posts
  let al := derivedAvg posts (·.likes) (recleanInt d.avg_likes_per_post)
  let ac := derivedAvg posts (·.comments) (recleanInt d.avg_comments_per_post)
  { has_metrics := d.has_metrics
    influencer_name := if nameNeedsFix d.influencer_name then some u else d.influencer_name
    data_quality_score := some (d.data_quality_score.getD (.float (1/2)))
    extraction_confidence := some (d.extraction_confidence.getD (.float (1/2)))
    missing_data_points := some (d.missing_data_points.getD [])
    data_source_reliability := some (d.data_source_reliability.getD (S "medium"))
    recent_posts := some posts
    followers_count := recleanInt d.followers_count
    following_count := recleanInt d.following_count
    posts_count := recleanInt d.posts_count
    avg_likes_per_post := al
    avg_comments_per_post := ac
    engagement_rate :=
      derivedEngagement al ac (recleanInt d.followers_count)
        (recleanFloat d.engagement_rate) }

/-! ## `_quick_metrics_check` (the heuristic prefilter)

The source's indicator list mixes keyword strings with two regex pattern
strings, and the loop branches on `isinstance(indicator, str)` before calling
`re.search`.  Every indicator — the raw patterns included — is a plain `str`,
so that branch is always taken and each indicator is tested with `in`, as a
literal substring; the `re.search` arm is unreachable.  `r1Match`/`r2Match`
below embed the two patterns' regex semantics, to state what the dead branch
would have matched; `quick_metrics_check` embeds what the code does. -/

/-- One of the four metric keywords of the regex alternation group. -/
def kwHere (l : Str) : Bool :=
  startsWithL (S "likes") l || startsWithL (S "comments") l ||
  startsWithL (S "followers") l || startsWithL (S "views") l

/-- After the optional suffix: `\s*` then a metric keyword. -/
def kwAfterWs (l : Str) : Bool := kwHere (l.dropWhile isPyWs)

/-- Match of `\d+[kKmM]?\s*(likes|comments|followers|views)` anchored here
(on lowercased text only `k`/`m` can occur). -/
def r1Here (l : Str) : Bool :=
  match l with
  | c :: _ =>
    if isDigitCh c then
      let r := l.dropWhile isDigitCh
      match r with
      | x :: r' => if x = 'k' || x = 'm' then kwAfterWs r' || kwAfterWs r else kwAfterWs r
      | [] => false
    else false
  | [] => false

/-- `re.search` of the number-plus-keyword pattern, as the unreachable
`else` branch would have applied it: a match at some position. -/
def r1Match : Str → Bool
  | [] => false
  | c :: cs => r1Here (c :: cs) || r1Match cs

/-- Three decimal digits ahead. -/
def threeDigits : Str → Bool
  | a :: b :: c :: _ => isDigitCh a && isDigitCh b && isDigitCh c
  | _ => false

/-- `[,\s]*\d{3}`: any run of separators, then three digits. -/
def sepThenThree : Str → Bool
  | [] => false
  | c :: cs => threeDigits (c :: cs) || ((c = ',' || isPyWs c) && sepThenThree cs)

/-- Match of `\d{1,3}[,\s]*\d{3}` anchored here (one, two or three leading
digits, backtracking included). -/
def r2Here (l : Str) : Bool :=
  match l with
  | a :: r1 =>
    isDigitCh a &&
      (sepThenThree r1 ||
        match r1 with
        | b :: r2 =>
          isDigitCh b &&
            (sepThenThree r2 ||
              match r2 with
              | c :: r3 => isDigitCh c && sepThenThree r3
              | [] => false)
        | [] => false)
  | [] => false

/-- `re.search` of the thousands-grouped-number pattern, as the unreachable
`else` branch would have applied it: a match at some position. -/
def r2Match : Str → Bool
  | [] => false
  | c :: cs => r2Here (c :: cs) || r2Match cs

/-- `OpenAIHelper._quick_metrics_check`: lowercase the text, then test each
indicator of the fixed list with `in`.  Because every indicator, the two raw
regex patterns included, is a `str`, each one — the patterns too — is tested
as a literal substring, and the `re.search` branch never runs. -/
def quick_metrics_check (text : Str) : Bool :=
  let tl := pyLower text
  isSubstr (S "likes") tl || isSubstr (S "comments") tl ||
  isSubstr (S "followers") tl || isSubstr (S "views") tl ||
  isSubstr (S "reach") tl || isSubstr (S "impressions") tl ||
  isSubstr (S "engagement") tl || isSubstr (S "post") tl ||
  isSubstr (S "instagram.com/p/") tl || isSubstr (S "analytics") tl ||
  isSubstr (S "stats") tl ||
  isSubstr (S "\\d+[kKmM]?\\s*(likes|comments|followers|views)") tl ||
  isSubstr (S "\\d\x7b1,3\x7d[,\\s]*\\d\x7b3\x7d") tl

/-! ## The empty-record sentinel and the extraction control flow -/

/-- `OpenAIHelper._create_empty_metrics_response_with_username`. -/
def create_empty_metrics_response_with_username (u : Str) : RawData :=
  { has_metrics := false
    influencer_name := some u
    data_quality_score := some (.float 0)
    extraction_confidence := some (.float 1)
    missing_data_points := some []
    data_source_reliability := some (S "high")
    recent_posts := some []
    followers_count := .none
    following_count := .none
    posts_count := .none
    avg_likes_per_post := .none
    avg_comments_per_post := .none
    engagement_rate := .none }

/-- A character the handle capture group `[a-zA-Z0-9._]` accepts. -/
def isHandleCh (c : Char) : Bool :=
  (65 ≤ c.toNat && c.toNat ≤ 90) || (97 ≤ c.toNat && c.toNat ≤ 122) ||
  isDigitCh c || c = '.' || c = '_'

/-- `re.search(r'@([a-zA-Z0-9._]+)', msg)`: the first `@handle`.  (The source's
further patterns all require an `@handle` too, so the first pattern decides.) -/
def findHandle : Str → Option Str
  | [] => none
  | c :: cs =>
    if c = '@' then
      match cs.takeWhile isHandleCh with
      | [] => findHandle cs
      | h => some h
    else findHandle cs

/-- `extract_influencer_name`: regex first; on no match, a low-cost model call
whose reply (`nameOracle`, `none` for an API exception) is stripped of `@` and
trusted unless empty or `unknown`. -/
def extract_influencer_name (msg : Str) (nameOracle : Option Str) : Str :=
  match findHandle msg with
  | some h => h
  | none =>
    match nameOracle with
    | none => S "unknown"
    | some o =>
      let u := trimWs o |>.filter (fun c => c ≠ '@')
      if u ≠ [] && u ≠ S "unknown" then u else S "unknown"

/-- The metrics-extraction model call: either the parsed JSON reply, or the
merged parse-failure / API-exception outcome. -/
inductive ModelReply where
  | failure
  | ok (d : RawData)
deriving DecidableEq, Repr

/-- `OpenAIHelper.extract_metrics_from_text`: prefilter; resolve `unknown`
usernames from the text; call the model (the `reply` oracle); force the
influencer name; validate and clean.  Parse failures and exceptions degrade to
the empty record. -/
def extract_metrics_from_text (now : Date) (text username : Str)
    (nameOracle : Option Str) (reply : ModelReply) : RawData :=
  if !quick_metrics_check text then
    create_empty_metrics_response_with_username username
  else
    let u1 :=
      if username = S "unknown" then
        let e := extract_influencer_name text nameOracle
        if e ≠ S "unknown" then e else username
      else username
    match reply with
    | .failure => create_empty_metrics_response_with_username u1
    | .ok d =>
      let d' :=
        if nameNeedsFix d.influencer_name then { d with influencer_name := some u1 } else d
      validate_and_clean_metrics_enhanced now d' u1

/-! ## Intent classification and the message-processing flow -/

/-- The classification dict, with the keys the pipeline reads. -/
structure Classification where
  message_intent : Str
  sentiment : Str
  contains_metrics : Option Bool
  requires_immediate_response : Option Bool
  suggested_response_type : Str
  urgency_level : Str
deriving DecidableEq, Repr

/-- The classification model call: the parsed reply, or any exception. -/
inductive ClassifyOutcome where
  | failure
  | ok (c : Classification)
deriving DecidableEq, Repr

/-- `OpenAIHelper.classify_message_intent`: the model's classification, or, on
any exception, the fixed default (`general_chat`, no metrics). -/
def classify_message_intent (o : ClassifyOutcome) : Classification :=
  match o with
  | .ok c => c
  | .failure =>
    { message_intent := S "general_chat"
      sentiment := S "neutral"
      contains_metrics := some false
      requires_immediate_response := some false
      suggested_response_type := S "provide_support"
      urgency_level := S "low" }

/-- The compiled result of `process_influencer_message` (the fields the claims
are about). -/
structure ProcessResult where
  influencer_username : Str
  original_message : Str
  classification : Classification
  metrics_data : Option RawData
  processing_status : Str
deriving DecidableEq, Repr

/-- `OpenAIHelper.process_influencer_message`: classify, extract metrics only
when the classification's `contains_metrics` is true, compile the result. -/
def process_influencer_message (now : Date) (text username : Str)
    (clsOutcome : ClassifyOutcome) (nameOracle : Option Str)
    (reply : ModelReply) : ProcessResult :=
  let cls := classify_message_intent clsOutcome
  let md : Option RawData :=
    if cls.contains_metrics.getD false then
      some (extract_metrics_from_text now text username nameOracle reply)
    else none
  { influencer_username := username
    original_message := text
    classification := cls
    metrics_data := md
    processing_status := S "success" }

/-! ## JSON values, `json.loads`, and the brace-block fallback
(Contract_to_JSON/lambda_function.py) -/

/-- A parsed JSON value (numbers as exact rationals). -/
inductive Json where
  | null
  | bool (b : Bool)
  | num (q : ℚ)
  | str (s : Str)
  | arr (xs : List Json)
  | obj (kvs : List (Str × Json))

/-- The opening-brace character. -/
def lbrace : Char := Char.ofNat 123

/-- The closing-brace character. -/
def rbrace : Char := Char.ofNat 125

/-- JSON insignificant whitespace. -/
def isJsonWs (c : Char) : Bool :=
  c.toNat = 32 || c.toNat = 9 || c.toNat = 10 || c.toNat = 13

/-- Skip insignificant whitespace. -/
def skipJWs (l : Str) : Str := l.dropWhile isJsonWs

/-- Hexadecimal digit value. -/
def hexVal? (c : Char) : Option ℕ :=
  if isDigitCh c then some (c.toNat - 48)
  else if 97 ≤ c.toNat && c.toNat ≤ 102 then some (c.toNat - 87)
  else if 65 ≤ c.toNat && c.toNat ≤ 70 then some (c.toNat - 55)
  else none

/-- The single-character JSON escapes. -/
def escChar? (c : Char) : Option Char :=
  if c.toNat = 34 || c.toNat = 92 || c = '/' then some c
  else if c = 'b' then some (Char.ofNat 8)
  else if c = 'f' then some (Char.ofNat 12)
  else if c = 'n' then some (Char.ofNat 10)
  else if c = 'r' then some (Char.ofNat 13)
  else if c = 't' then some (Char.ofNat 9)
  else none

/-- JSON string body after the opening quote: characters up to the closing
quote, escapes decoded, raw control characters rejected. -/
def parseJStr : ℕ → Str → Option (Str × Str)
  | 0, _ => none
  | _ + 1, [] => none
  | n + 1, c :: cs =>
    if c.toNat = 34 then some ([], cs)
    else if c.toNat = 92 then
      match cs with
      | [] => none
      | e :: cs2 =>
        if e = 'u' then
          match cs2 with
          | a :: b :: x :: y :: cs3 => do
            let va ← hexVal? a
            let vb ← hexVal? b
            let vx ← hexVal? x
            let vy ← hexVal? y
            let (r, rest) ← parseJStr n cs3
            pure (Char.ofNat (((va * 16 + vb) * 16 + vx) * 16 + vy) :: r, rest)
          | _ => none
        else do
          let ec ← escChar? e
          let (r, rest) ← parseJStr n cs2
          pure (ec :: r, rest)
    else if c.toNat < 32 then none
    else do
      let (r, rest) ← parseJStr n cs
      pure (c :: r, rest)

/-- Optional fraction part of a JSON number. -/
def parseFrac : Str → Option (ℚ × Str)
  | '.' :: fr =>
    let fd := fr.takeWhile isDigitCh
    if fd = [] then none
    else some ((natVal fd : ℚ) / (10 : ℚ) ^ fd.length, fr.dropWhile isDigitCh)
  | l => some (0, l)

/-- Optional exponent part of a JSON number. -/
def parseExpPart : Str → Option (ℤ × Str)
  | [] => some (0, [])
  | c :: cs =>
    if c = 'e' || c = 'E' then
      let (sgn, cs1) : ℤ × Str :=
        match cs with
        | '+' :: r => (1, r)
        | '-' :: r => (-1, r)
        | r => (1, r)
      let ed := cs1.takeWhile isDigitCh
      if ed = [] then none else some (sgn * (natVal ed : ℤ), cs1.dropWhile isDigitCh)
    else some (0, c :: cs)

/-- A strict JSON number (no leading zeros, mandatory digit runs). -/
def parseJNum (l : Str) : Option (ℚ × Str) :=
  let (neg, l1) : Bool × Str :=
    match l with
    | '-' :: r => (true, r)
    | r => (false, r)
  let ip := l1.takeWhile isDigitCh
  if ip = [] then none
  else if 1 < ip.length && ip.headD '0' = '0' then none
  else
    match parseFrac (l1.dropWhile isDigitCh) with
    | none => none
    | some (fq, r2) =>
      match parseExpPart r2 with
      | none => none
      | some (ex, r3) =>
        let mag : ℚ := ((natVal ip : ℚ) + fq) * (10 : ℚ) ^ ex
        some (if neg then -mag else mag, r3)

mutual

/-- A JSON value at the head of the input (fuel-bounded recursive descent). -/
def parseJVal : ℕ → Str → Option (Json × Str)
  | 0, _ => none
  | n + 1, l =>
    let l1 := skipJWs l
    match l1 with
    | [] => none
    | c :: cs =>
      if c = lbrace then
        match skipJWs cs with
        | x :: rest => if x = rbrace then some (.obj [], rest) else
            match parseJMembers n (x :: rest) with
            | some (ms, r) => some (.obj ms, r)
            | none => none
        | [] => none
      else if c = '[' then
        match skipJWs cs with
        | x :: rest => if x = ']' then some (.arr [], rest) else
            match parseJElems n (x :: rest) with
            | some (es, r) => some (.arr es, r)
            | none => none
        | [] => none
      else if c.toNat = 34 then
        match parseJStr (n + 1) cs with
        | some (s, r) => some (.str s, r)
        | none => none
      else if startsWithL (S "true") l1 then some (.bool true, l1.drop 4)
      else if startsWithL (S "false") l1 then some (.bool false, l1.drop 5)
      else if startsWithL (S "null") l1 then some (.null, l1.drop 4)
      else
        match parseJNum l1 with
        | some (q, r) => some (.num q, r)
        | none => none

/-- Array elements `value (',' value)* ']'`. -/
def parseJElems : ℕ → Str → Option (List Json × Str)
  | 0, _ => none
  | n + 1, l => do
    let (v, r) ← parseJVal n l
    match skipJWs r with
    | ',' :: r2 => do
      let (vs, r3) ← parseJElems n r2
      pure (v :: vs, r3)
    | ']' :: r2 => pure ([v], r2)
    | _ => none

/-- Object members `string ':' value (',' ...)* closing-brace`. -/
def parseJMembers : ℕ → Str → Option (List (Str × Json) × Str)
  | 0, _ => none
  | n + 1, l =>
    match skipJWs l with
    | c :: cs =>
      if c.toNat = 34 then do
        let (k, r1) ← parseJStr (n + 1) cs
        match skipJWs r1 with
        | ':' :: r2 => do
          let (v, r3) ← parseJVal n r2
          match skipJWs r3 with
          | ',' :: r4 => do
            let (ms, r5) ← parseJMembers n r4
            pure ((k, v) :: ms, r5)
          | x :: r4 =>
            if x = rbrace then pure ([(k, v)], r4) else none
          | [] => none
        | _ => none
      else none
    | [] => none

end

/-- `json.loads`: a full parse of the string as one JSON value, whitespace
padding allowed; `none` models `JSONDecodeError`. -/
def loads (l : Str) : Option Json :=
  match parseJVal (2 * l.length + 8) l with
  | some (j, rest) => if skipJWs rest = [] then some j else none
  | none => none

/-- The prefix of `l` up to and including the last occurrence of `c`. -/
def upToLast (c : Char) : Str → Option Str
  | [] => none
  | x :: xs =>
    match upToLast c xs with
    | some r => some (x :: r)
    | none => if x = c then some [x] else none

/-- The substring `re.search(r'(\x7b[\s\S]+\x7d)', text)` captures: from the
first opening brace to the last closing brace, provided at least one character
separates them (`[\s\S]+` needs one). -/
def extract_json_search (l : Str) : Option Str :=
  match upToLast rbrace (l.dropWhile (fun c => c ≠ lbrace)) with
  | some r => if 3 ≤ r.length then some r else none
  | none => none

/-- The error dict `extract_json_block` returns when no block parses. -/
def errDict (raw : Str) : Json :=
  .obj [(S "error", .str (S "Could not extract valid JSON from response")),
        (S "raw_response", .str raw)]

/-- `extract_json_block` (Contract_to_JSON): regex-extract the brace block and
parse it; any failure yields the error dict carrying the raw reply. -/
def extract_json_block (text : Str) : Json :=
  match extract_json_search text with
  | some blk =>
    match loads blk with
    | some j => j
    | none => errDict text
  | none => errDict text

/-- The reply-parsing stage of `parse_contract_with_openai`: `json.loads` on
the whole reply, then, on `JSONDecodeError`, the brace-block fallback. -/
def parse_model_reply (content : Str) : Json :=
  match loads content with
  | some j => j
  | none => extract_json_block content

/-! ## Sample inputs used by witnesses and counterexamples -/

/-- A fixed valid "today" for concrete runs. -/
def nowSample : Date := ⟨2024, 6, 10⟩

/-- A candidate record with every field absent. -/
def emptyCand : RawData :=
  { has_metrics := false
    influencer_name := none
    data_quality_score := none
    extraction_confidence := none
    missing_data_points := none
    data_source_reliability := none
    recent_posts := none
    followers_count := .none
    following_count := .none
    posts_count := .none
    avg_likes_per_post := .none
    avg_comments_per_post := .none
    engagement_rate := .none }

/-- A minimal post carrying only a likes value and a fixed absolute date. -/
def pLikes (v : PyVal) : RawPost :=
  { post_id := none
    url := none
    media_type := none
    likes := v
    comments := .none
    post_date := some (S "2024-06-01")
    views := .none
    reach := .none
    impressions := .none
    shares := .none
    completeness_score := none }

/-- C2's counterexample input: `avg_likes_per_post` present but zero. -/
def dC2 : RawData :=
  { emptyCand with
    followers_count := .int 10000
    avg_likes_per_post := .int 0
    avg_comments_per_post := .int 20 }

/-- C2's witness input: the spec's own example numbers. -/
def dC2w : RawData :=
  { emptyCand with
    followers_count := .int 10000
    avg_likes_per_post := .int 100
    avg_comments_per_post := .int 20 }

/-- C3's counterexample input: two posts whose likes average to 100.5. -/
def dC3 : RawData :=
  { emptyCand with recent_posts := some [pLikes (.int 100), pLikes (.int 101)] }

/-- C3's witness input: the spec's null-exclusion example. -/
def dC3w : RawData :=
  { emptyCand with
    recent_posts := some [pLikes (.int 100), pLikes .none, pLikes (.int 200)] }

/-- C5's counterexample input: a reply claiming `has_metrics = false` while
still carrying a post and a follower count. -/
def dC5 : RawData :=
  { emptyCand with
    has_metrics := false
    recent_posts := some [pLikes (.int 100)]
    followers_count := .int 500 }

/-- C8's counterexample input: a model-supplied quality score far above 1. -/
def dC8 : RawData :=
  { emptyCand with data_quality_score := some (.float 5) }

/-- C9's witness input: informal numbers that need scaling and cleaning. -/
def dC9 : RawData :=
  { emptyCand with
    recent_posts := some [pLikes (.str (S "2k"))]
    followers_count := .str (S "1,234")
    avg_comments_per_post := .int 20 }

/-! ## Character and string lemmas -/

theorem dropWhile_eq_self_of_none {p : Char → Bool} {l : Str}
    (h : ∀ c ∈ l, p c = false) : l.dropWhile p = l := by
  cases l with
  | nil => rfl
  | cons c cs => simp [List.dropWhile, h c (List.mem_cons_self c cs)]

theorem trimWs_eq_self {l : Str} (h : ∀ c ∈ l, isPyWs c = false) : trimWs l = l := by
  unfold trimWs
  rw [dropWhile_eq_self_of_none h, dropWhile_eq_self_of_none, List.reverse_reverse]
  intro c hc
  exact h c (List.mem_reverse.mp hc)

theorem lowerChar_eq_self {c : Char} (h : ¬(65 ≤ c.toNat ∧ c.toNat ≤ 90)) :
    lowerChar c = c := by
  unfold lowerChar
  rw [if_neg]
  simpa [Bool.and_eq_true, decide_eq_true_iff] using h

theorem lowerChar_of_digit {c : Char} (h : isDigitCh c = true) : lowerChar c = c := by
  apply lowerChar_eq_self
  simp only [isDigitCh, Bool.and_eq_true, decide_eq_true_iff] at h
  omega

theorem isPyWs_of_digit {c : Char} (h : isDigitCh c = true) : isPyWs c = false := by
  simp only [isDigitCh, Bool.and_eq_true, decide_eq_true_iff] at h
  simp only [isPyWs, Bool.or_eq_false_iff, decide_eq_false_iff_not]
  omega

theorem pyLower_eq_self {l : Str}
    (h : ∀ c ∈ l, ¬(65 ≤ c.toNat ∧ c.toNat ≤ 90)) : pyLower l = l := by
  unfold pyLower
  induction l with
  | nil => rfl
  | cons c cs ih =>
    simp only [List.map_cons, List.cons.injEq]
    exact ⟨lowerChar_eq_self (h c (List.mem_cons_self c cs)),
      ih (fun x hx => h x (List.mem_cons_of_mem c hx))⟩

theorem startsWithL_false_of_head {p : Char} {ps l : Str}
    (h : ∀ c ∈ l, c ≠ p) : startsWithL (p :: ps) l = false := by
  cases l with
  | nil => rfl
  | cons x xs =>
    simp only [startsWithL, Bool.and_eq_false_iff, decide_eq_false_iff_not]
    exact Or.inl (fun hxp => h x (List.mem_cons_self x xs) (hxp ▸ rfl))

theorem isSubstr_false_of_head {p : Char} {ps l : Str}
    (h : ∀ c ∈ l, c ≠ p) : isSubstr (p :: ps) l = false := by
  induction l with
  | nil => rfl
  | cons x xs ih =>
    simp only [isSubstr, Bool.or_eq_false_iff]
    exact ⟨startsWithL_false_of_head h,
      ih (fun c hc => h c (List.mem_cons_of_mem x hc))⟩

theorem lastChar?_append_single (l : Str) (c : Char) :
    lastChar? (l ++ [c]) = some c := by
  induction l with
  | nil => rfl
  | cons x xs ih =>
    cases xs with
    | nil => rfl
    | cons y ys => simpa [lastChar?] using ih

theorem splitOnChar_ne_nil (c : Char) (l : Str) : splitOnChar c l ≠ [] := by
  cases l with
  | nil => simp [splitOnChar]
  | cons x xs =>
    simp only [splitOnChar]
    split
    · simp
    · split
      · simp
      · simp

theorem splitOnChar_of_no_sep {c : Char} {l : Str} (h : ∀ x ∈ l, x ≠ c) :
    splitOnChar c l = [l] := by
  induction l with
  | nil => rfl
  | cons x xs ih =>
    have hx : x ≠ c := h x (List.mem_cons_self x xs)
    have hrec := ih (fun y hy => h y (List.mem_cons_of_mem x hy))
    simp [splitOnChar, hx, hrec]

theorem splitOnChar_append_sep {c : Char} {a : Str} (rest : Str)
    (h : ∀ x ∈ a, x ≠ c) :
    splitOnChar c (a ++ c :: rest) = a :: splitOnChar c rest := by
  induction a with
  | nil => simp [splitOnChar]
  | cons x xs ih =>
    have hx : x ≠ c := h x (List.mem_cons_self x xs)
    have hrec := ih (fun y hy => h y (List.mem_cons_of_mem x hy))
    simp only [List.cons_append, splitOnChar, if_neg hx]
    rw [show xs.append (c :: rest) = xs ++ c :: rest from rfl, hrec]

/-! ## Numeral lemmas -/

theorem isDigitCh_digitChar (k : ℕ) : isDigitCh (digitChar k) = true := by
  unfold digitChar
  split <;> rfl

theorem digitVal_digitChar {k : ℕ} (h : k < 10) : digitVal (digitChar k) = k := by
  interval_cases k <;> rfl

theorem natVal_append_single (l : Str) (c : Char) :
    natVal (l ++ [c]) = natVal l * 10 + digitVal c := by
  simp [natVal, List.foldl_append]

theorem natDigits_all_digits (n : ℕ) : ∀ c ∈ natDigits n, isDigitCh c = true := by
  induction n using Nat.strong_induction_on with
  | _ n ih =>
    unfold natDigits
    split
    · intro c hc
      rw [List.mem_singleton.mp hc]
      exact isDigitCh_digitChar n
    · intro c hc
      rcases List.mem_append.mp hc with h1 | h2
      · exact ih (n / 10) (Nat.div_lt_self (by omega) (by omega)) c h1
      · rw [List.mem_singleton.mp h2]
        exact isDigitCh_digitChar (n % 10)

theorem natDigits_ne_nil (n : ℕ) : natDigits n ≠ [] := by
  unfold natDigits
  split
  · simp
  · simp

theorem natVal_natDigits (n : ℕ) : natVal (natDigits n) = n := by
  induction n using Nat.strong_induction_on with
  | _ n ih =>
    unfold natDigits
    split
    · next h =>
      show natVal [digitChar n] = n
      simp [natVal, digitVal_digitChar h]
    · next h =>
      rw [natVal_append_single, ih (n / 10) (Nat.div_lt_self (by omega) (by omega)),
        digitVal_digitChar (Nat.mod_lt _ (by omega))]
      omega

theorem natDigits_length_le {n k : ℕ} (hk : 1 ≤ k) (h : n < 10 ^ k) :
    (natDigits n).length ≤ k := by
  induction n using Nat.strong_induction_on generalizing k with
  | _ n ih =>
    unfold natDigits
    split
    · simpa using hk
    · next hn =>
      rw [List.length_append]
      have hk2 : 2 ≤ k := by
        by_contra hcon
        interval_cases k
        omega
      have hdiv : n / 10 < 10 ^ (k - 1) := by
        have : n < 10 ^ (k - 1) * 10 := by
          have : 10 ^ (k - 1) * 10 = 10 ^ k := by
            rw [← pow_succ]
            congr 1
            omega
          omega
        omega
      have := ih (n / 10) (Nat.div_lt_self (by omega) (by omega)) (by omega) hdiv
      simp only [List.length_singleton]
      omega

theorem natVal_replicate_zero_append (k : ℕ) (l : Str) :
    natVal (List.replicate k '0' ++ l) = natVal l := by
  induction k with
  | zero => rfl
  | succ k ih =>
    simpa [List.replicate_succ, natVal, digitVal] using ih

theorem padNum_all_digits (w n : ℕ) : ∀ c ∈ padNum w n, isDigitCh c = true := by
  intro c hc
  rcases List.mem_append.mp hc with h1 | h2
  · rw [List.eq_of_mem_replicate h1]
    rfl
  · exact natDigits_all_digits n c h2

theorem padNum_length {w n : ℕ} (h : (natDigits n).length ≤ w) :
    (padNum w n).length = w := by
  simp only [padNum, List.length_append, List.length_replicate]
  omega

theorem padNum_ne_nil (w n : ℕ) : padNum w n ≠ [] := by
  intro h
  exact natDigits_ne_nil n (List.append_eq_nil.mp h).2

theorem natVal_padNum (w n : ℕ) : natVal (padNum w n) = n := by
  rw [padNum, natVal_replicate_zero_append, natVal_natDigits]

/-! ## Date lemmas -/

theorem one_le_daysInMonth (y m : ℕ) : 1 ≤ daysInMonth y m := by
  unfold daysInMonth
  split
  · split <;> omega
  · split <;> omega

theorem daysInMonth_le_31 (y m : ℕ) : daysInMonth y m ≤ 31 := by
  unfold daysInMonth
  split
  · split <;> omega
  · split <;> omega

/-- The characters of a canonical date string: digits and dashes only. -/
theorem fmtDate_chars {dt : Date} :
    ∀ c ∈ fmtDate dt, isDigitCh c = true ∨ c = '-' := by
  intro c hc
  simp only [fmtDate, List.mem_append, List.mem_cons] at hc
  rcases hc with h | h | h | h | h
  · exact Or.inl (padNum_all_digits 4 dt.y c h)
  · exact Or.inr h
  · exact Or.inl (padNum_all_digits 2 dt.m c h)
  · exact Or.inr h
  · exact Or.inl (padNum_all_digits 2 dt.d c h)

theorem readBounded_padNum {cap n : ℕ} (hlen : (natDigits n).length ≤ cap) :
    readBounded cap (padNum cap n) = some n := by
  unfold readBounded
  rw [if_pos, natVal_padNum]
  refine Bool.and_eq_true_iff.mpr ⟨Bool.and_eq_true_iff.mpr ⟨?_, ?_⟩, ?_⟩
  · simpa using padNum_ne_nil cap n
  · simp [padNum_length hlen]
  · exact List.all_eq_true.mpr (padNum_all_digits cap n)

/-- Unfolded validity of a date. -/
theorem validDateB_iff {dt : Date} :
    validDateB dt = true ↔
      1 ≤ dt.y ∧ dt.y ≤ 9999 ∧ 1 ≤ dt.m ∧ dt.m ≤ 12 ∧ 1 ≤ dt.d ∧
        dt.d ≤ daysInMonth dt.y dt.m := by
  simp [validDateB, Bool.and_eq_true, decide_eq_true_iff, and_assoc]

theorem validDateB_mk {y m d : ℕ} (h1 : 1 ≤ y) (h2 : y ≤ 9999) (h3 : 1 ≤ m)
    (h4 : m ≤ 12) (h5 : 1 ≤ d) (h6 : d ≤ daysInMonth y m) :
    validDateB ⟨y, m, d⟩ = true := by
  simp [validDateB, decide_eq_true_iff, h1, h2, h3, h4, h5, h6]

theorem natDigits_length_year {y : ℕ} (h : y ≤ 9999) : (natDigits y).length ≤ 4 :=
  natDigits_length_le (by omega) (by omega)

theorem natDigits_length_two {m : ℕ} (h : m ≤ 99) : (natDigits m).length ≤ 2 :=
  natDigits_length_le (by omega) (by omega)

/-- `strptime('%Y-%m-%d')` inverts `strftime('%Y-%m-%d')` on valid dates. -/
theorem parseYmd?_fmtDate {dt : Date} (h : validDateB dt = true) :
    parseYmd? (fmtDate dt) = some dt := by
  obtain ⟨h1, h2, h3, h4, h5, h6⟩ := validDateB_iff.mp h
  have hd31 : dt.d ≤ 31 := le_trans h6 (daysInMonth_le_31 dt.y dt.m)
  have hsplit : splitOnChar '-' (fmtDate dt) =
      [padNum 4 dt.y, padNum 2 dt.m, padNum 2 dt.d] := by
    unfold fmtDate
    have hpad4 : ∀ x ∈ padNum 4 dt.y, x ≠ '-' := by
      intro x hx he
      have := padNum_all_digits 4 dt.y x hx
      rw [he] at this
      exact absurd this (by decide)
    have hpad2m : ∀ x ∈ padNum 2 dt.m, x ≠ '-' := by
      intro x hx he
      have := padNum_all_digits 2 dt.m x hx
      rw [he] at this
      exact absurd this (by decide)
    have hpad2d : ∀ x ∈ padNum 2 dt.d, x ≠ '-' := by
      intro x hx he
      have := padNum_all_digits 2 dt.d x hx
      rw [he] at this
      exact absurd this (by decide)
    rw [splitOnChar_append_sep _ hpad4, splitOnChar_append_sep _ hpad2m,
      splitOnChar_of_no_sep hpad2d]
  unfold parseYmd?
  rw [hsplit]
  simp only [readBounded_padNum (natDigits_length_year h2),
    readBounded_padNum (natDigits_length_two (m := dt.m) (by omega)),
    readBounded_padNum (natDigits_length_two (m := dt.d) (by omega)),
    Option.bind_eq_bind, Option.some_bind]
  show mkDate? dt.y dt.m dt.d = some dt
  unfold mkDate?
  split
  · rfl
  · next hcon =>
    exact absurd (by simp [decide_eq_true_iff, h1, h2, h3, h4, h5, h6]) hcon

theorem mkDate?_valid {y m d : ℕ} {dt : Date} (h : mkDate? y m d = some dt) :
    validDateB dt = true ∧ dt = ⟨y, m, d⟩ := by
  unfold mkDate? at h
  split at h
  · next hcond =>
    rw [Option.some.injEq] at h
    subst h
    refine ⟨?_, rfl⟩
    simp only [Bool.and_eq_true, decide_eq_true_iff] at hcond ⊢
    simp [validDateB, decide_eq_true_iff]
    omega
  · exact absurd h (by simp)

theorem parseYmd?_valid {l : Str} {dt : Date} (h : parseYmd? l = some dt) :
    validDateB dt = true := by
  unfold parseYmd? at h
  split at h
  · next ys ms ds _ =>
    simp only [Option.bind_eq_bind, Option.bind_eq_some] at h
    obtain ⟨y, _, m, _, d, _, hmk⟩ := h
    exact (mkDate?_valid hmk).1
  · exact absurd h (by simp)

theorem parseDmySlash?_valid {l : Str} {dt : Date} (h : parseDmySlash? l = some dt) :
    validDateB dt = true := by
  unfold parseDmySlash? at h
  split at h
  · next ds ms ys _ =>
    simp only [Option.bind_eq_bind, Option.bind_eq_some] at h
    obtain ⟨d, _, m, _, y, _, hmk⟩ := h
    exact (mkDate?_valid hmk).1
  · exact absurd h (by simp)

theorem parseMdySlash?_valid {l : Str} {dt : Date} (h : parseMdySlash? l = some dt) :
    validDateB dt = true := by
  unfold parseMdySlash? at h
  split at h
  · next ms ds ys _ =>
    simp only [Option.bind_eq_bind, Option.bind_eq_some] at h
    obtain ⟨m, _, d, _, y, _, hmk⟩ := h
    exact (mkDate?_valid hmk).1
  · exact absurd h (by simp)

theorem parseYmdHms?_valid {l : Str} {dt : Date} (h : parseYmdHms? l = some dt) :
    validDateB dt = true := by
  unfold parseYmdHms? at h
  split at h
  · next ds ts _ =>
    simp only [Option.bind_eq_bind, Option.bind_eq_some] at h
    obtain ⟨d, hd, _, _, hpure⟩ := h
    rw [Option.pure_def, Option.some.injEq] at hpure
    subst hpure
    exact parseYmd?_valid hd
  · exact absurd h (by simp)

theorem parseDmyDash?_valid {l : Str} {dt : Date} (h : parseDmyDash? l = some dt) :
    validDateB dt = true := by
  unfold parseDmyDash? at h
  split at h
  · next ds ms ys _ =>
    simp only [Option.bind_eq_bind, Option.bind_eq_some] at h
    obtain ⟨d, _, m, _, y, _, hmk⟩ := h
    exact (mkDate?_valid hmk).1
  · exact absurd h (by simp)

theorem tryDatePatterns_valid {l : Str} {dt : Date} (h : tryDatePatterns l = some dt) :
    validDateB dt = true := by
  unfold tryDatePatterns at h
  rcases h1 : parseYmd? l with _ | d1
  · rw [h1, Option.none_orElse'] at h
    rcases h2 : parseDmySlash? l with _ | d2
    · rw [h2, Option.none_orElse'] at h
      rcases h3 : parseMdySlash? l with _ | d3
      · rw [h3, Option.none_orElse'] at h
        rcases h4 : parseYmdHms? l with _ | d4
        · rw [h4, Option.none_orElse'] at h
          exact parseDmyDash?_valid h
        · rw [h4, Option.some_orElse'] at h
          rw [Option.some.injEq] at h
          exact h ▸ parseYmdHms?_valid h4
      · rw [h3, Option.some_orElse'] at h
        rw [Option.some.injEq] at h
        exact h ▸ parseMdySlash?_valid h3
    · rw [h2, Option.some_orElse'] at h
      rw [Option.some.injEq] at h
      exact h ▸ parseDmySlash?_valid h2
  · rw [h1, Option.some_orElse'] at h
    rw [Option.some.injEq] at h
    exact h ▸ parseYmd?_valid h1

theorem subDay?_valid {dt dt' : Date} (h : validDateB dt = true)
    (hs : subDay? dt = some dt') : validDateB dt' = true := by
  obtain ⟨h1, h2, h3, h4, h5, h6⟩ := validDateB_iff.mp h
  unfold subDay? at hs
  split at hs
  · next hd =>
    rw [Option.some.injEq] at hs
    subst hs
    exact validDateB_mk h1 h2 h3 h4 (by omega) (by omega)
  · split at hs
    · next hm =>
      rw [Option.some.injEq] at hs
      subst hs
      exact validDateB_mk h1 h2 (by omega) (by omega)
        (one_le_daysInMonth dt.y (dt.m - 1)) (le_refl _)
    · split at hs
      · next hy =>
        rw [Option.some.injEq] at hs
        subst hs
        exact validDateB_mk (by omega) (by omega) (by omega) (by omega) (by omega)
          (le_of_eq (show (31 : ℕ) = daysInMonth (dt.y - 1) 12 from rfl))
      · exact absurd hs (by simp)

theorem subDays?_valid {dt dt' : Date} {n : ℕ} (h : validDateB dt = true)
    (hs : subDays? dt n = some dt') : validDateB dt' = true := by
  induction n generalizing dt with
  | zero =>
    rw [subDays?, Option.some.injEq] at hs
    exact hs ▸ h
  | succ n ih =>
    rw [subDays?] at hs
    rcases h1 : subDay? dt with _ | d1
    · rw [h1] at hs
      exact absurd hs (by simp)
    · rw [h1] at hs
      simp only [Option.some_bind] at hs
      exact ih (subDay?_valid h h1) hs

/-- Every string `_validate_date` returns is the canonical print of some valid
date (today included), provided today itself is valid. -/
theorem validate_date_shape {now : Date} (hnow : validDateB now = true)
    (x : Option Str) :
    ∃ dt, validDateB dt = true ∧ validate_date now x = fmtDate dt := by
  have hsub : ∀ k : ℕ, ∃ dt, validDateB dt = true ∧
      fmtSub now (subDays? now k) = fmtDate dt := by
    intro k
    unfold fmtSub
    rcases hk : subDays? now k with _ | d1
    · exact ⟨now, hnow, rfl⟩
    · exact ⟨d1, subDays?_valid hnow hk, rfl⟩
  rcases x with _ | ds
  · exact ⟨now, hnow, rfl⟩
  · simp only [validate_date]
    split
    · exact ⟨now, hnow, rfl⟩
    · split
      · next r heq =>
        split at heq
        · split at heq
          · rw [Option.some.injEq] at heq
            obtain ⟨dt, hv, he⟩ := hsub 1
            exact ⟨dt, hv, heq ▸ he⟩
          · split at heq
            · rcases hn : firstNat? ds with _ | n
              · rw [hn] at heq
                exact absurd heq (by simp)
              · rw [hn] at heq
                simp only [Option.map_some', Option.some.injEq] at heq
                obtain ⟨dt, hv, he⟩ := hsub n
                exact ⟨dt, hv, heq ▸ he⟩
            · split at heq
              · rcases hn : firstNat? ds with _ | n
                · rw [hn] at heq
                  exact absurd heq (by simp)
                · rw [hn] at heq
                  simp only [Option.map_some', Option.some.injEq] at heq
                  obtain ⟨dt, hv, he⟩ := hsub (7 * n)
                  exact ⟨dt, hv, heq ▸ he⟩
              · exact absurd heq (by simp)
        · exact absurd heq (by simp)
      · split
        · next dt heq => exact ⟨dt, tryDatePatterns_valid heq, rfl⟩
        · exact ⟨now, hnow, rfl⟩

/-- `_validate_date` fixes canonical date strings. -/
theorem validate_date_fmt {now dt : Date} (h : validDateB dt = true) :
    validate_date now (some (fmtDate dt)) = fmtDate dt := by
  have hne : fmtDate dt ≠ [] := by
    intro hcon
    exact padNum_ne_nil 4 dt.y (List.append_eq_nil.mp hcon).1
  have hlow : pyLower (fmtDate dt) = fmtDate dt := by
    apply pyLower_eq_self
    intro c hc
    rcases fmtDate_chars c hc with hd | hd
    · simp only [isDigitCh, Bool.and_eq_true, decide_eq_true_iff] at hd
      omega
    · rw [hd]
      decide

  have hago : isSubstr (S "ago") (pyLower (fmtDate dt)) = false := by
    rw [hlow]
    apply isSubstr_false_of_head
    intro c hc he
    rcases fmtDate_chars c hc with hd | hd
    · rw [he] at hd
      exact absurd hd (by decide)
    · rw [he] at hd
      exact absurd hd (by decide)
  have hyest : isSubstr (S "yesterday") (pyLower (fmtDate dt)) = false := by
    rw [hlow]
    apply isSubstr_false_of_head
    intro c hc he
    rcases fmtDate_chars c hc with hd | hd
    · rw [he] at hd
      exact absurd hd (by decide)
    · rw [he] at hd
      exact absurd hd (by decide)
  have htry : tryDatePatterns (fmtDate dt) = some dt := by
    unfold tryDatePatterns
    rw [parseYmd?_fmtDate h]
    rfl
  simp only [validate_date]
  rw [if_neg hne]
  simp only [hago, hyest, Bool.or_self, htry, Bool.false_eq_true, if_false]

/-- `_validate_date` is idempotent on its own output (today being valid). -/
theorem validate_date_idem {now : Date} (hnow : validDateB now = true)
    (x : Option Str) :
    validate_date now (some (validate_date now x)) = validate_date now x := by
  obtain ⟨dt, hv, he⟩ := validate_date_shape hnow x
  rw [he, validate_date_fmt hv]

/-! ## Idempotence of the field-level normalizers -/

/-- Reparsing a value the validator already stored is the identity. -/
theorem safe_int_pyOfInt (o : Option ℤ) :
    safe_int_enhanced (pyOfInt? o) = o := by
  cases o <;> rfl

theorem safe_float_pyOfRat (o : Option ℚ) :
    safe_float (pyOfRat? o) = o := by
  cases o <;> rfl

/-- `_validate_media_type` only ever returns the four canonical types. -/
theorem validate_media_type_mem (mt : Option Str) :
    validate_media_type mt = S "photo" ∨ validate_media_type mt = S "video" ∨
    validate_media_type mt = S "reel" ∨ validate_media_type mt = S "carousel" := by
  rcases mt with _ | s
  · exact Or.inl rfl
  · simp only [validate_media_type]
    split
    · exact Or.inl rfl
    · split
      · next hmem =>
        simp only [Bool.or_eq_true, decide_eq_true_iff] at hmem
        rcases hmem with ((h | h) | h) | h
        · exact Or.inl h
        · exact Or.inr (Or.inl h)
        · exact Or.inr (Or.inr (Or.inl h))
        · exact Or.inr (Or.inr (Or.inr h))
      · split
        · exact Or.inl rfl
        · split
          · exact Or.inr (Or.inl rfl)
          · split
            · exact Or.inr (Or.inr (Or.inl rfl))
            · split
              · exact Or.inr (Or.inr (Or.inr rfl))
              · exact Or.inl rfl

/-- `_validate_media_type` fixes its own output. -/
theorem validate_media_type_idem (mt : Option Str) :
    validate_media_type (some (validate_media_type mt)) = validate_media_type mt := by
  rcases validate_media_type_mem mt with h | h | h | h <;> rw [h] <;> rfl

/-- The synthesized placeholder post id is nonempty. -/
theorem defaultPid_ne_nil (i : ℕ) : defaultPid i ≠ [] := by
  simp [defaultPid, S]

/-- The synthesized placeholder URL is nonempty. -/
theorem defaultUrl_ne_nil (u : Str) (i : ℕ) : defaultUrl u i ≠ [] := by
  simp [defaultUrl, S]

/-- The repaired post id, after defaulting, is never empty. -/
theorem pidClean_ne_nil (i : ℕ) (pid1 : Option Str) :
    (if strFalsy pid1 then defaultPid i else pid1.getD []) ≠ [] := by
  split
  · exact defaultPid_ne_nil i
  · next hf =>
    rcases pid1 with _ | s
    · exact absurd rfl hf
    · simpa [strFalsy] using hf

/-- The URL, after defaulting, is never empty. -/
theorem urlClean_ne_nil (u : Str) (i : ℕ) (purl : Str) :
    (if purl = [] then defaultUrl u i else purl) ≠ [] := by
  split
  · exact defaultUrl_ne_nil u i
  · next hf => exact hf

/-- `cleanPost` fixes every record already in cleaned shape. -/
theorem cleanPost_fixed {now : Date} {u : Str} {i : ℕ} {pidc urlc mtc dc : Str}
    {lk cm vw rc im sh : Option ℤ} {cv : PyVal}
    (hpid : pidc ≠ []) (hurl : urlc ≠ [])
    (hmt : validate_media_type (some mtc) = mtc)
    (hdc : validate_date now (some dc) = dc) :
    cleanPost now u i
      ⟨some pidc, some urlc, some mtc, pyOfInt? lk, pyOfInt? cm, some dc,
        pyOfInt? vw, pyOfInt? rc, pyOfInt? im, pyOfInt? sh, some cv⟩ =
      ⟨some pidc, some urlc, some mtc, pyOfInt? lk, pyOfInt? cm, some dc,
        pyOfInt? vw, pyOfInt? rc, pyOfInt? im, pyOfInt? sh, some cv⟩ := by
  unfold cleanPost cleanPid
  simp [strFalsy, hpid, hurl, hmt, hdc, safe_int_pyOfInt]

/-- The post-cleaning loop body is idempotent (today being a valid date). -/
theorem cleanPost_idem {now : Date} (hnow : validDateB now = true)
    (u : Str) (i : ℕ) (p : RawPost) :
    cleanPost now u i (cleanPost now u i p) = cleanPost now u i p := by
  have hdef : cleanPost now u i p =
      ⟨some (if strFalsy (cleanPid (p.url.getD []) p.post_id) then defaultPid i
          else (cleanPid (p.url.getD []) p.post_id).getD []),
        some (if p.url.getD [] = [] then defaultUrl u i else p.url.getD []),
        some (validate_media_type p.media_type),
        pyOfInt? (safe_int_enhanced p.likes),
        pyOfInt? (safe_int_enhanced p.comments),
        some (validate_date now p.post_date),
        pyOfInt? (safe_int_enhanced p.views),
        pyOfInt? (safe_int_enhanced p.reach),
        pyOfInt? (safe_int_enhanced p.impressions),
        pyOfInt? (safe_int_enhanced p.shares),
        some (p.completeness_score.getD (.float (1/2)))⟩ := rfl
  rw [hdef]
  exact cleanPost_fixed (pidClean_ne_nil i _) (urlClean_ne_nil u i _)
    (validate_media_type_idem p.media_type) (validate_date_idem hnow p.post_date)

/-- The indexed cleaning loop is idempotent. -/
theorem cleanPosts_idem {now : Date} (hnow : validDateB now = true)
    (u : Str) (i : ℕ) (l : List RawPost) :
    cleanPosts now u i (cleanPosts now u i l) = cleanPosts now u i l := by
  induction l generalizing i with
  | nil => rfl
  | cons p ps ih =>
    simp only [cleanPosts]
    rw [cleanPost_idem hnow, ih]

/-- The cleaning loop yields the empty list only on the empty list. -/
theorem cleanPosts_eq_nil_iff {now : Date} {u : Str} {i : ℕ} {l : List RawPost} :
    cleanPosts now u i l = [] ↔ l = [] := by
  cases l <;> simp [cleanPosts]

/-! ## Idempotence of the whole validator -/

/-- Re-running the posts stage on its own output changes nothing. -/
theorem cleanedPosts_idem {now : Date} (hnow : validDateB now = true) (u : Str)
    (o : Option (List RawPost)) :
    cleanedPosts now u (some (cleanedPosts now u o)) = cleanedPosts now u o := by
  rcases o with _ | l
  · rfl
  · by_cases hl : l = []
    · simp [cleanedPosts, hl]
    · simp only [cleanedPosts, if_neg hl]
      rw [if_neg (fun hc => hl (cleanPosts_eq_nil_iff.mp hc)), cleanPosts_idem hnow]

/-- Reparsing an already-reparsed integer slot is the identity. -/
theorem recleanInt_idem (v : PyVal) : recleanInt (recleanInt v) = recleanInt v := by
  unfold recleanInt
  rw [safe_int_pyOfInt]

/-- Reparsing an already-reparsed float slot is the identity. -/
theorem recleanFloat_idem (v : PyVal) :
    recleanFloat (recleanFloat v) = recleanFloat v := by
  unfold recleanFloat
  rw [safe_float_pyOfRat]

/-- The average derivation returns either its argument or a plain integer. -/
theorem derivedAvg_cases (posts : List RawPost) (f : RawPost → PyVal) (a0 : PyVal) :
    derivedAvg posts f a0 = a0 ∨ ∃ n : ℤ, derivedAvg posts f a0 = .int n := by
  unfold derivedAvg
  split
  · split
    · exact Or.inl rfl
    · exact Or.inr ⟨_, rfl⟩
  · exact Or.inl rfl

/-- Reparsing the average slot after derivation is the identity. -/
theorem recleanInt_derivedAvg (posts : List RawPost) (f : RawPost → PyVal) (x : PyVal) :
    recleanInt (derivedAvg posts f (recleanInt x)) = derivedAvg posts f (recleanInt x) := by
  rcases derivedAvg_cases posts f (recleanInt x) with h | ⟨n, h⟩
  · rw [h, recleanInt_idem]
  · rw [h]
    rfl

theorem pyTruthy_int (n : ℤ) : pyTruthy (.int n) = decide (n ≠ 0) := rfl

theorem pyTruthy_float (q : ℚ) : pyTruthy (.float q) = decide (q ≠ 0) := rfl

/-- The average derivation is idempotent. -/
theorem derivedAvg_idem (posts : List RawPost) (f : RawPost → PyVal) (a0 : PyVal) :
    derivedAvg posts f (derivedAvg posts f a0) = derivedAvg posts f a0 := by
  unfold derivedAvg
  by_cases hp : posts = []
  · simp [hp]
  · by_cases ht : pyTruthy a0
    · simp [hp, ht]
    · have ht' : pyTruthy a0 = false := by simpa using ht
      cases hnn : nonNullInts (posts.map f) with
      | nil => simp [hp, ht', hnn]
      | cons v vs =>
        by_cases hz : truncMean (v :: vs) = 0
        · simp [hp, ht', hnn, pyTruthy_int, hz]
        · simp [hp, ht', hnn, pyTruthy_int, hz]

/-- The engagement derivation returns either its last argument or a float. -/
theorem derivedEngagement_cases (al ac fc er0 : PyVal) :
    derivedEngagement al ac fc er0 = er0 ∨
      ∃ q : ℚ, derivedEngagement al ac fc er0 = .float q := by
  unfold derivedEngagement
  split
  · exact Or.inr ⟨_, rfl⟩
  · exact Or.inl rfl

/-- Reparsing the engagement slot after derivation is the identity. -/
theorem recleanFloat_derivedEngagement (al ac fc : PyVal) (x : PyVal) :
    recleanFloat (derivedEngagement al ac fc (recleanFloat x)) =
      derivedEngagement al ac fc (recleanFloat x) := by
  rcases derivedEngagement_cases al ac fc (recleanFloat x) with h | ⟨q, h⟩
  · rw [h, recleanFloat_idem]
  · rw [h]
    rfl

/-- The engagement derivation is idempotent. -/
theorem derivedEngagement_idem (al ac fc er0 : PyVal) :
    derivedEngagement al ac fc (derivedEngagement al ac fc er0) =
      derivedEngagement al ac fc er0 := by
  unfold derivedEngagement
  by_cases habc : (pyTruthy al && pyTruthy ac && pyTruthy fc) = true
  · by_cases her : pyTruthy er0
    · simp [habc, her]
    · have her' : pyTruthy er0 = false := by simpa using her
      by_cases hz : round2 ((pyToRat al + pyToRat ac) / pyToRat fc * 100) = 0
      · simp [habc, her', pyTruthy_float, hz]
      · simp [habc, her', pyTruthy_float, hz]
  · have habc' : (pyTruthy al && pyTruthy ac && pyTruthy fc) = false := by
      simpa using habc
    simp [habc']

/-- The name-fixing step is idempotent. -/
theorem nameFix_idem (o : Option Str) (u : Str) :
    (if nameNeedsFix (if nameNeedsFix o then some u else o) then some u
      else (if nameNeedsFix o then some u else o)) =
      (if nameNeedsFix o then some u else o) := by
  by_cases h : nameNeedsFix o = true
  · simp only [h, if_true]
    by_cases h2 : nameNeedsFix (some u) = true
    · simp [h2]
    · simp [h2]
  · simp only [Bool.not_eq_true] at h
    simp [h]

/-- Claim C9's core: the validator is idempotent — running
`_validate_and_clean_metrics_enhanced` on its own output returns that output
unchanged (today being a valid calendar date). -/
theorem validate_and_clean_idem {now : Date} (hnow : validDateB now = true)
    (d : RawData) (u : Str) :
    validate_and_clean_metrics_enhanced now
        (validate_and_clean_metrics_enhanced now d u) u =
      validate_and_clean_metrics_enhanced now d u := by
  simp only [validate_and_clean_metrics_enhanced]
  simp only [cleanedPosts_idem hnow, recleanInt_idem, recleanInt_derivedAvg,
    derivedAvg_idem, recleanFloat_derivedEngagement, derivedEngagement_idem,
    nameFix_idem, Option.getD_some]

/-! ## Decimal-string lemmas for the suffix normalizer -/

/-- Characters an unsigned decimal can contain. -/
theorem udecVal?_chars {l : Str} {q : ℚ} (h : udecVal? l = some q) :
    ∀ c ∈ l, isDigitCh c = true ∨ c = '.' := by
  intro c hc
  unfold udecVal? at h
  rw [← List.takeWhile_append_dropWhile (p := isDigitCh) (l := l)] at hc
  rcases List.mem_append.mp hc with h1 | h1
  · exact Or.inl (List.mem_takeWhile_imp h1)
  · split at h
    · next hd =>
      rw [hd] at h1
      exact absurd h1 (List.not_mem_nil c)
    · next x fp hd =>
      rw [hd] at h1
      split at h
      · next hcond =>
        simp only [Bool.and_eq_true, decide_eq_true_iff] at hcond
        rcases List.mem_cons.mp h1 with h2 | h2
        · exact Or.inr (h2.trans hcond.1.1)
        · exact Or.inl (List.all_eq_true.mp hcond.1.2 c h2)
      · exact absurd h (by simp)

/-- Characters a signed decimal can contain. -/
theorem decValue?_chars {l : Str} {q : ℚ} (h : decValue? l = some q) :
    ∀ c ∈ l, isDigitCh c = true ∨ c = '.' ∨ c = '-' ∨ c = '+' := by
  intro c hc
  cases l with
  | nil => exact absurd hc (List.not_mem_nil c)
  | cons x r =>
    simp only [decValue?] at h
    by_cases hx : x = '-'
    · rw [if_pos hx] at h
      rcases Option.map_eq_some'.mp h with ⟨q0, hq0, _⟩
      rcases List.mem_cons.mp hc with h2 | h2
      · exact Or.inr (Or.inr (Or.inl (h2.trans hx)))
      · rcases udecVal?_chars hq0 c h2 with h3 | h3
        · exact Or.inl h3
        · exact Or.inr (Or.inl h3)
    · rw [if_neg hx] at h
      by_cases hx2 : x = '+'
      · rw [if_pos hx2] at h
        rcases List.mem_cons.mp hc with h2 | h2
        · exact Or.inr (Or.inr (Or.inr (h2.trans hx2)))
        · rcases udecVal?_chars h c h2 with h3 | h3
          · exact Or.inl h3
          · exact Or.inr (Or.inl h3)
      · rw [if_neg hx2] at h
        rcases udecVal?_chars h c hc with h3 | h3
        · exact Or.inl h3
        · exact Or.inr (Or.inl h3)

/-- A decimal's characters are not whitespace. -/
theorem decValue?_no_ws {l : Str} {q : ℚ} (h : decValue? l = some q) :
    ∀ c ∈ l, isPyWs c = false := by
  intro c hc
  rcases decValue?_chars h c hc with h1 | h1 | h1 | h1
  · exact isPyWs_of_digit h1
  · rw [h1]
    rfl
  · rw [h1]
    rfl
  · rw [h1]
    rfl

/-- A decimal's characters are not uppercase letters. -/
theorem decValue?_not_upper {l : Str} {q : ℚ} (h : decValue? l = some q) :
    ∀ c ∈ l, ¬(65 ≤ c.toNat ∧ c.toNat ≤ 90) := by
  intro c hc
  rcases decValue?_chars h c hc with h1 | h1 | h1 | h1
  · simp only [isDigitCh, Bool.and_eq_true, decide_eq_true_iff] at h1
    omega
  · rw [h1]
    decide
  · rw [h1]
    decide
  · rw [h1]
    decide

theorem splitExp_none_of_no_e {l : Str} (h : ∀ c ∈ l, c ≠ 'e' ∧ c ≠ 'E') :
    splitExp l = none := by
  induction l with
  | nil => rfl
  | cons c cs ih =>
    have hc := h c (List.mem_cons_self c cs)
    simp only [splitExp]
    rw [if_neg (by simp [hc.1, hc.2])]
    rw [ih (fun x hx => h x (List.mem_cons_of_mem c hx))]
    rfl

/-- A decimal's characters are not exponent markers. -/
theorem decValue?_no_e {l : Str} {q : ℚ} (h : decValue? l = some q) :
    ∀ c ∈ l, c ≠ 'e' ∧ c ≠ 'E' := by
  intro c hc
  rcases decValue?_chars h c hc with h1 | h1 | h1 | h1
  · simp only [isDigitCh, Bool.and_eq_true, decide_eq_true_iff] at h1
    constructor <;> (intro he; rw [he] at h1; revert h1; decide)
  · rw [h1]
    exact ⟨by decide, by decide⟩
  · rw [h1]
    exact ⟨by decide, by decide⟩
  · rw [h1]
    exact ⟨by decide, by decide⟩

/-- `float(...)` agrees with the plain decimal reading on decimal strings. -/
theorem pyFloat?_of_decValue {l : Str} {q : ℚ} (h : decValue? l = some q) :
    pyFloat? l = some q := by
  unfold pyFloat?
  rw [trimWs_eq_self (decValue?_no_ws h), splitExp_none_of_no_e (decValue?_no_e h)]
  exact h

/-- Lowercasing, stripping, suffix detection and prefix recovery on a decimal
string followed by one suffix character. -/
theorem trim_lower_decimal_suffix {s : Str} {q : ℚ} (hdec : decValue? s = some q)
    {c : Char} (hc : isPyWs (lowerChar c) = false) :
    trimWs (pyLower (s ++ [c])) = s ++ [lowerChar c] := by
  have hs : List.map lowerChar s = s := pyLower_eq_self (decValue?_not_upper hdec)
  have hlow : pyLower (s ++ [c]) = s ++ [lowerChar c] := by
    unfold pyLower
    rw [List.map_append, hs]
    rfl
  rw [hlow]
  apply trimWs_eq_self
  intro x hx
  rcases List.mem_append.mp hx with h1 | h1
  · exact decValue?_no_ws hdec x h1
  · rw [List.mem_singleton.mp h1]
    exact hc

/-- The `k`/`m` suffix branch of `_safe_int_enhanced`, for a decimal prefix and
a suffix whose lowercase form is `k` or `m`. -/
theorem safe_int_enhanced_suffix_core (s : Str) (q : ℚ) (c : Char)
    (hdec : decValue? s = some q) (hc : lowerChar c = 'k' ∨ lowerChar c = 'm') :
    safe_int_enhanced (.str (s ++ [c])) =
      some (truncRat (q * (if lowerChar c = 'k' then 1000 else 1000000))) := by
  have hws : isPyWs (lowerChar c) = false := by
    rcases hc with h | h <;> rw [h] <;> decide
  have htrim := trim_lower_decimal_suffix hdec hws
  rcases hc with h | h
  · rw [if_pos h]
    rw [h] at htrim
    simp only [safe_int_enhanced]
    rw [htrim]
    have hends : endsWithChar (s ++ ['k']) 'k' = true := by
      simp [endsWithChar, lastChar?_append_single]
    rw [hends]
    simp only [if_true, List.dropLast_concat, pyFloat?_of_decValue hdec,
      Option.map_some']
  · rw [if_neg (by rw [h]; decide)]
    rw [h] at htrim
    simp only [safe_int_enhanced]
    rw [htrim]
    have hends : endsWithChar (s ++ ['m']) 'k' = false := by
      simp [endsWithChar, lastChar?_append_single]
    have hends2 : endsWithChar (s ++ ['m']) 'm' = true := by
      simp [endsWithChar, lastChar?_append_single]
    rw [hends, hends2]
    simp only [Bool.false_eq_true, if_false, if_true, List.dropLast_concat,
      pyFloat?_of_decValue hdec, Option.map_some']

/-! ## Sign lemmas for the plain-string branch -/

theorem udecVal?_nonneg {l : Str} {q : ℚ} (h : udecVal? l = some q) : 0 ≤ q := by
  unfold udecVal? at h
  split at h
  · split at h
    · exact absurd h (by simp)
    · rw [Option.some.injEq] at h
      rw [← h]
      exact Nat.cast_nonneg _
  · split at h
    · rw [Option.some.injEq] at h
      rw [← h]
      exact add_nonneg (Nat.cast_nonneg _)
        (div_nonneg (Nat.cast_nonneg _) (by positivity))
    · exact absurd h (by simp)

theorem truncRat_nonneg {q : ℚ} (h : 0 ≤ q) : 0 ≤ truncRat q := by
  unfold truncRat
  rw [if_pos h]
  exact Int.floor_nonneg.mpr h

/-- `float(...)` of a string of digits and dots is never negative. -/
theorem pyFloat?_digits_dot_nonneg {l : Str} {q : ℚ}
    (hch : ∀ c ∈ l, isDigitCh c = true ∨ c = '.') (h : pyFloat? l = some q) :
    0 ≤ q := by
  have hws : ∀ c ∈ l, isPyWs c = false := by
    intro c hc
    rcases hch c hc with h1 | h1
    · exact isPyWs_of_digit h1
    · rw [h1]
      rfl
  have hne : ∀ c ∈ l, c ≠ 'e' ∧ c ≠ 'E' := by
    intro c hc
    rcases hch c hc with h1 | h1
    · simp only [isDigitCh, Bool.and_eq_true, decide_eq_true_iff] at h1
      constructor <;> (intro he; rw [he] at h1; revert h1; decide)
    · rw [h1]
      exact ⟨by decide, by decide⟩
  unfold pyFloat? at h
  rw [trimWs_eq_self hws, splitExp_none_of_no_e hne] at h
  cases l with
  | nil => exact absurd h (by simp [decValue?])
  | cons x r =>
    have hx := hch x (List.mem_cons_self x r)
    have hxm : x ≠ '-' := by
      rcases hx with h1 | h1
      · intro he
        rw [he] at h1
        exact absurd h1 (by decide)
      · rw [h1]
        decide
    have hxp : x ≠ '+' := by
      rcases hx with h1 | h1
      · intro he
        rw [he] at h1
        exact absurd h1 (by decide)
      · rw [h1]
        decide
    simp only [decValue?, if_neg hxm, if_neg hxp] at h
    exact udecVal?_nonneg h

/-- The plain (suffix-free) string branch of `_safe_int_enhanced` only produces
non-negative integers: the sign characters are stripped with every other
non-digit. -/
theorem safe_int_enhanced_plain_nonneg {s : Str} {n : ℤ}
    (hk : endsWithChar (trimWs (pyLower s)) 'k' = false)
    (hm : endsWithChar (trimWs (pyLower s)) 'm' = false)
    (h : safe_int_enhanced (.str s) = some n) : 0 ≤ n := by
  simp only [safe_int_enhanced, hk, hm, Bool.false_eq_true, if_false] at h
  have hchars : ∀ c ∈ (trimWs (pyLower s)).filter (fun c => isDigitCh c || c = '.'),
      isDigitCh c = true ∨ c = '.' := by
    intro c hcm
    have hp := (List.mem_filter.mp hcm).2
    rcases Bool.or_eq_true_iff.mp hp with h1 | h1
    · exact Or.inl h1
    · exact Or.inr (by simpa using h1)
  split at h
  · rcases Option.map_eq_some'.mp h with ⟨q, hq, hn⟩
    rw [← hn]
    exact truncRat_nonneg (pyFloat?_digits_dot_nonneg hchars hq)
  · split at h
    · exact absurd h (by simp)
    · rw [Option.some.injEq] at h
      rw [← h]
      exact Int.ofNat_nonneg _

/-! ## Brace-block extraction lemmas -/

theorem dropWhile_to_brace {p1 rest : Str} (h1 : ∀ c ∈ p1, c ≠ lbrace) :
    (p1 ++ lbrace :: rest).dropWhile (fun c => c ≠ lbrace) = lbrace :: rest := by
  induction p1 with
  | nil => simp [List.dropWhile]
  | cons x xs ih =>
    have hx : x ≠ lbrace := h1 x (List.mem_cons_self x xs)
    simp only [List.cons_append, List.dropWhile, List.append_eq]
    rw [show (decide (x ≠ lbrace)) = true from by simpa using hx]
    exact ih (fun c hc => h1 c (List.mem_cons_of_mem x hc))

theorem upToLast_none_of_absent {c : Char} {l : Str} (h : ∀ x ∈ l, x ≠ c) :
    upToLast c l = none := by
  induction l with
  | nil => rfl
  | cons x xs ih =>
    simp only [upToLast]
    rw [ih (fun y hy => h y (List.mem_cons_of_mem x hy))]
    simp [h x (List.mem_cons_self x xs)]

theorem upToLast_last_sep {c : Char} {a b : Str} (hb : ∀ x ∈ b, x ≠ c) :
    upToLast c (a ++ c :: b) = some (a ++ [c]) := by
  induction a with
  | nil =>
    simp only [List.nil_append, upToLast]
    rw [upToLast_none_of_absent hb]
    simp
  | cons x xs ih =>
    simp only [List.cons_append, upToLast, List.append_eq]
    rw [ih]

/-- The greedy brace regex captures exactly the object when the leading prose
has no opening brace, the trailing prose no closing brace, and at least one
character separates the object's braces. -/
theorem extract_json_search_wrap {p1 p2 mid : Str}
    (h1 : ∀ c ∈ p1, c ≠ lbrace) (h2 : ∀ c ∈ p2, c ≠ rbrace) (hmid : mid ≠ []) :
    extract_json_search (p1 ++ (lbrace :: (mid ++ [rbrace])) ++ p2) =
      some (lbrace :: (mid ++ [rbrace])) := by
  unfold extract_json_search
  have hd : (p1 ++ (lbrace :: (mid ++ [rbrace])) ++ p2).dropWhile
      (fun c => c ≠ lbrace) = (lbrace :: mid) ++ rbrace :: p2 := by
    have hassoc : p1 ++ (lbrace :: (mid ++ [rbrace])) ++ p2 =
        p1 ++ lbrace :: (mid ++ rbrace :: p2) := by
      simp
    rw [hassoc, dropWhile_to_brace h1]
    simp
  rw [hd, upToLast_last_sep h2]
  clear hd
  have hlen : 3 ≤ ((lbrace :: mid) ++ [rbrace]).length := by
    simp only [List.length_append, List.length_cons, List.length_singleton]
    have : mid.length ≠ 0 := fun hz => hmid (List.eq_nil_of_length_eq_zero hz)
    omega
  simp only [if_pos hlen]
  simp

/-! ## Evaluation helpers for exact-rational results

The kernel cannot normalize `ℚ` arithmetic (it runs through `Nat.gcd`), so
concrete rational results are settled through these integer-cast lemmas. -/

theorem truncRat_intCast (n : ℤ) : truncRat ((n : ℚ)) = n := by
  unfold truncRat
  split
  · exact Int.floor_intCast n
  · rw [← Int.cast_neg, Int.floor_intCast]
    omega

theorem truncRat_eq_of_cast {q : ℚ} {n : ℤ} (h : q = (n : ℚ)) : truncRat q = n := by
  rw [h, truncRat_intCast]

theorem truncRat_eq_of_bounds {q : ℚ} {n : ℤ} (h0 : 0 ≤ q) (h1 : (n : ℚ) ≤ q)
    (h2 : q < n + 1) : truncRat q = n := by
  unfold truncRat
  rw [if_pos h0]
  exact Int.floor_eq_iff.mpr ⟨h1, h2⟩

/-- `int(...)` truncation keeps a float at or below `-1` negative. -/
theorem truncRat_neg_of_le_neg_one {q : ℚ} (h : q ≤ -1) : truncRat q < 0 := by
  unfold truncRat
  rw [if_neg (by linarith)]
  have h1 : (1 : ℤ) ≤ ⌊-q⌋ := Int.le_floor.mpr (by push_cast; linarith)
  omega

/-- `int(...)` truncation sends a float strictly between `-1` and `0` to `0`. -/
theorem truncRat_eq_zero_of_neg_frac {q : ℚ} (h1 : -1 < q) (h2 : q < 0) :
    truncRat q = 0 := by
  unfold truncRat
  rw [if_neg (by linarith)]
  have h0 : ⌊-q⌋ = 0 :=
    Int.floor_eq_iff.mpr (by constructor <;> push_cast <;> linarith)
  omega

theorem round2_eq_of_cast {q : ℚ} {n : ℤ} (h : q * 100 = (n : ℚ)) :
    round2 q = (n : ℚ) / 100 := by
  unfold round2
  rw [h, Int.floor_intCast, if_pos (by simp)]

/-! ## The claims -/

/-- C1: for every decimal-number string followed by a trailing `k`/`K`/`m`/`M`
suffix, the numeric normalizer `_safe_int_enhanced` returns the pre-suffix
value multiplied by 1 000 (k) or 1 000 000 (m), truncated toward zero to an
integer. -/
theorem c1_suffix_scaling (s : Str) (q : ℚ) (c : Char)
    (hdec : decValue? s = some q)
    (hsuf : c = 'k' ∨ c = 'K' ∨ c = 'm' ∨ c = 'M') :
    safe_int_enhanced (.str (s ++ [c])) =
      some (truncRat (q * (if c = 'k' ∨ c = 'K' then 1000 else 1000000))) := by
  rcases hsuf with h | h | h | h <;> subst h
  · have h0 := safe_int_enhanced_suffix_core s q 'k' hdec (Or.inl (by decide))
    rw [show lowerChar 'k' = 'k' from by decide] at h0
    simpa using h0
  · have h0 := safe_int_enhanced_suffix_core s q 'K' hdec (Or.inl (by decide))
    rw [show lowerChar 'K' = 'k' from by decide] at h0
    simpa using h0
  · have h0 := safe_int_enhanced_suffix_core s q 'm' hdec (Or.inr (by decide))
    rw [show lowerChar 'm' = 'm' from by decide] at h0
    simpa using h0
  · have h0 := safe_int_enhanced_suffix_core s q 'M' hdec (Or.inr (by decide))
    rw [show lowerChar 'M' = 'm' from by decide] at h0
    simpa using h0

/-- C1 witness: the three examples of the claim — `"2k"` gives 2000, `"45K"`
gives 45000, `"1.2M"` gives 1200000 — via `c1_suffix_scaling`. -/
theorem c1_suffix_scaling_witness :
    safe_int_enhanced (.str (S "2k")) = some 2000 ∧
    safe_int_enhanced (.str (S "45K")) = some 45000 ∧
    safe_int_enhanced (.str (S "1.2M")) = some 1200000 := by
  refine ⟨?_, ?_, ?_⟩
  · have h := c1_suffix_scaling (S "2") 2 'k' (by decide) (Or.inl rfl)
    rw [if_pos (Or.inl rfl), truncRat_eq_of_cast (n := 2000) (by norm_num)] at h
    exact h
  · have h := c1_suffix_scaling (S "45") 45 'K' (by decide) (Or.inr (Or.inl rfl))
    rw [if_pos (Or.inr rfl), truncRat_eq_of_cast (n := 45000) (by norm_num)] at h
    exact h
  · have hdec : decValue? (S "1.2") = some (6/5) := by
      have h0 : decValue? (S "1.2") =
          some ((natVal (S "1") : ℚ) + (natVal (S "2") : ℚ) / (10 : ℚ) ^ (1 : ℕ)) :=
        rfl
      rw [h0, show natVal (S "1") = 1 from rfl, show natVal (S "2") = 2 from rfl]
      norm_num
    have h := c1_suffix_scaling (S "1.2") (6/5) 'M' hdec (Or.inr (Or.inr (Or.inr rfl)))
    rw [if_neg (by decide), truncRat_eq_of_cast (n := 1200000) (by norm_num)] at h
    exact h

/-- C2 counterexample: with `avg_likes_per_post` present as 0,
`avg_comments_per_post` 20, `followers_count` 10000 and `engagement_rate`
absent, the validator leaves `engagement_rate` absent instead of deriving
`0.2` — Python truthiness skips the derivation for a zero average. -/
theorem c2_counterexample :
    safe_int_enhanced dC2.avg_likes_per_post = some 0 ∧
    safe_int_enhanced dC2.avg_comments_per_post = some 20 ∧
    safe_int_enhanced dC2.followers_count = some 10000 ∧
    safe_float dC2.engagement_rate = none ∧
    (validate_and_clean_metrics_enhanced nowSample dC2 (S "alice")).engagement_rate
      = PyVal.none ∧
    PyVal.none ≠ PyVal.float (round2 (((0 : ℚ) + 20) / 10000 * 100)) := by
  refine ⟨rfl, rfl, rfl, rfl, by decide, by simp⟩

/-- C2 (amended): when `engagement_rate` is absent, both averages are present
and nonzero, and `followers_count` is present and positive, the validator sets
`engagement_rate` to `round(((avg_likes + avg_comments) / followers) * 100, 2)`. -/
theorem c2_engagement_derivation (now : Date) (d : RawData) (u : Str)
    (a c f : ℤ)
    (ha : safe_int_enhanced d.avg_likes_per_post = some a) (ha0 : a ≠ 0)
    (hc : safe_int_enhanced d.avg_comments_per_post = some c) (hc0 : c ≠ 0)
    (hf : safe_int_enhanced d.followers_count = some f) (hf0 : 0 < f)
    (he : safe_float d.engagement_rate = none) :
    (validate_and_clean_metrics_enhanced now d u).engagement_rate =
      .float (round2 (((a : ℚ) + (c : ℚ)) / (f : ℚ) * 100)) := by
  have hal : recleanInt d.avg_likes_per_post = .int a := by
    rw [recleanInt, ha]
    rfl
  have hac : recleanInt d.avg_comments_per_post = .int c := by
    rw [recleanInt, hc]
    rfl
  have hfc : recleanInt d.followers_count = .int f := by
    rw [recleanInt, hf]
    rfl
  have her : recleanFloat d.engagement_rate = .none := by
    rw [recleanFloat, he]
    rfl
  have halD : derivedAvg (cleanedPosts now u d.recent_posts) (·.likes)
      (recleanInt d.avg_likes_per_post) = .int a := by
    rw [hal]
    unfold derivedAvg
    rw [if_neg (by simp [pyTruthy_int, ha0])]
  have hacD : derivedAvg (cleanedPosts now u d.recent_posts) (·.comments)
      (recleanInt d.avg_comments_per_post) = .int c := by
    rw [hac]
    unfold derivedAvg
    rw [if_neg (by simp [pyTruthy_int, hc0])]
  simp only [validate_and_clean_metrics_enhanced]
  rw [halD, hacD, hfc, her]
  unfold derivedEngagement
  rw [if_pos (by simp [pyTruthy_int, pyTruthy, ha0, hc0, show f ≠ 0 from by omega])]
  rfl

/-- C2 witness: the spec's example — averages 100 and 20, followers 10000 —
yields `engagement_rate = 1.2`, via `c2_engagement_derivation`. -/
theorem c2_engagement_derivation_witness :
    (validate_and_clean_metrics_enhanced nowSample dC2w (S "alice")).engagement_rate
      = PyVal.float (6/5) := by
  have h := c2_engagement_derivation nowSample dC2w (S "alice") 100 20 10000
    rfl (by decide) rfl (by decide) rfl (by decide) rfl
  rw [round2_eq_of_cast (n := 120) (by push_cast; norm_num)] at h
  rw [show ((120 : ℤ) : ℚ) / 100 = 6/5 from by norm_num] at h
  exact h

/-- C3 counterexample: two posts with 100 and 101 likes and an absent
`avg_likes_per_post` produce `avg_likes_per_post = 100`, not the arithmetic
mean 100.5 — `int(sum/len)` truncates. -/
theorem c3_counterexample :
    dC3.recent_posts = some [pLikes (.int 100), pLikes (.int 101)] ∧
    safe_int_enhanced dC3.avg_likes_per_post = none ∧
    (validate_and_clean_metrics_enhanced nowSample dC3 (S "alice")).avg_likes_per_post
      = PyVal.int 100 ∧
    ((100 : ℚ) ≠ ((100 : ℚ) + 101) / 2) := by
  refine ⟨rfl, rfl, ?_, by norm_num⟩
  show derivedAvg (cleanedPosts nowSample (S "alice") dC3.recent_posts) (·.likes)
    (recleanInt dC3.avg_likes_per_post) = PyVal.int 100
  have hlist : nonNullInts ((cleanedPosts nowSample (S "alice")
      dC3.recent_posts).map (·.likes)) = [100, 101] := by decide
  unfold derivedAvg
  rw [if_pos (by decide)]
  simp only [hlist]
  rw [show truncMean [100, 101] = 100 from truncRat_eq_of_bounds
    (by push_cast [List.sum_cons, List.sum_nil]; norm_num)
    (by push_cast [List.sum_cons, List.sum_nil]; norm_num)
    (by push_cast [List.sum_cons, List.sum_nil]; norm_num)]

/-- C3 (amended): with a non-empty `recent_posts` and an absent
`avg_likes_per_post` (resp. `avg_comments_per_post`), the validator sets that
field — each independently of the other — to the truncated (`int(sum/len)`)
mean of the non-null per-post values of the cleaned posts, and leaves it
absent when every value is null. -/
theorem c3_average_derivation :
    (∀ (now : Date) (d : RawData) (u : Str) (ps : List RawPost),
      d.recent_posts = some ps → ps ≠ [] →
      safe_int_enhanced d.avg_likes_per_post = none →
      (validate_and_clean_metrics_enhanced now d u).avg_likes_per_post =
        (match nonNullInts ((cleanPosts now u 0 ps).map (·.likes)) with
          | [] => PyVal.none
          | vs => .int (truncMean vs))) ∧
    (∀ (now : Date) (d : RawData) (u : Str) (ps : List RawPost),
      d.recent_posts = some ps → ps ≠ [] →
      safe_int_enhanced d.avg_comments_per_post = none →
      (validate_and_clean_metrics_enhanced now d u).avg_comments_per_post =
        (match nonNullInts ((cleanPosts now u 0 ps).map (·.comments)) with
          | [] => PyVal.none
          | vs => .int (truncMean vs))) := by
  constructor
  · intro now d u ps hp hne hl
    have hposts : cleanedPosts now u d.recent_posts = cleanPosts now u 0 ps := by
      rw [hp]
      simp only [cleanedPosts]
      rw [if_neg hne]
    have hpne : cleanPosts now u 0 ps ≠ [] :=
      fun hz => hne (cleanPosts_eq_nil_iff.mp hz)
    have hal : recleanInt d.avg_likes_per_post = .none := by
      rw [recleanInt, hl]
      rfl
    simp only [validate_and_clean_metrics_enhanced]
    rw [hposts, hal]
    unfold derivedAvg
    rw [if_pos (by simp [pyTruthy, hpne])]
  · intro now d u ps hp hne hc
    have hposts : cleanedPosts now u d.recent_posts = cleanPosts now u 0 ps := by
      rw [hp]
      simp only [cleanedPosts]
      rw [if_neg hne]
    have hpne : cleanPosts now u 0 ps ≠ [] :=
      fun hz => hne (cleanPosts_eq_nil_iff.mp hz)
    have hac : recleanInt d.avg_comments_per_post = .none := by
      rw [recleanInt, hc]
      rfl
    simp only [validate_and_clean_metrics_enhanced]
    rw [hposts, hac]
    unfold derivedAvg
    rw [if_pos (by simp [pyTruthy, hpne])]

/-- C3 witness: the spec's example — posts with likes 100, null, 200 and all
comments null — yields `avg_likes_per_post = 150` and an absent
`avg_comments_per_post`, via `c3_average_derivation`. -/
theorem c3_average_derivation_witness :
    (validate_and_clean_metrics_enhanced nowSample dC3w (S "alice")).avg_likes_per_post
      = PyVal.int 150 ∧
    (validate_and_clean_metrics_enhanced nowSample dC3w (S "alice")).avg_comments_per_post
      = PyVal.none := by
  have h1 := c3_average_derivation.1 nowSample dC3w (S "alice")
    [pLikes (.int 100), pLikes .none, pLikes (.int 200)] rfl (by decide) rfl
  have h2 := c3_average_derivation.2 nowSample dC3w (S "alice")
    [pLikes (.int 100), pLikes .none, pLikes (.int 200)] rfl (by decide) rfl
  have hlikes : nonNullInts ((cleanPosts nowSample (S "alice") 0
      [pLikes (.int 100), pLikes .none, pLikes (.int 200)]).map (·.likes)) =
      [100, 200] := by decide
  have hcomments : nonNullInts ((cleanPosts nowSample (S "alice") 0
      [pLikes (.int 100), pLikes .none, pLikes (.int 200)]).map (·.comments)) =
      ([] : List ℤ) := by decide
  simp only [hlikes] at h1
  simp only [hcomments] at h2
  rw [show truncMean [100, 200] = 150 from truncRat_eq_of_cast
    (by push_cast [List.sum_cons, List.sum_nil]; norm_num)] at h1
  exact ⟨h1, h2⟩

/-- C4 counterexample: a negative numeric input is not normalized to absent —
`_safe_int_enhanced(-42)` returns `-42`; and the string `"-42"` becomes `42`
because the sign character is stripped, not rejected. -/
theorem c4_counterexample :
    safe_int_enhanced (.int (-42)) = some (-42) ∧ ((-42 : ℤ) < 0) ∧
    safe_int_enhanced (.str (S "-42")) = some 42 := by
  refine ⟨rfl, by norm_num, by decide⟩

/-- C4 (amended): negative values can survive normalization — integer inputs
pass through `int(...)` unchanged, float inputs are truncated toward zero (a
float at or below `-1` stays negative; a float strictly between `-1` and `0`
becomes `0`), bools become `0`/`1`, and a `k`/`m`-suffixed string scales its
signed decimal prefix, so a prefix at or below `-1` yields a negative result;
only plain (suffix-free) string inputs are guaranteed to normalize to a
non-negative integer or to absent, because all sign characters are stripped
with the other non-digits. -/
theorem c4_sign_behaviour :
    (∀ m : ℤ, safe_int_enhanced (.int m) = some m) ∧
    (∀ q : ℚ, safe_int_enhanced (.float q) = some (truncRat q)) ∧
    (∀ q : ℚ, q ≤ -1 → truncRat q < 0) ∧
    (∀ q : ℚ, -1 < q → q < 0 → truncRat q = 0) ∧
    (∀ b : Bool, safe_int_enhanced (.bool b) = some (if b then 1 else 0)) ∧
    (∀ (s : Str) (q : ℚ) (c : Char),
      decValue? s = some q → q ≤ -1 →
      (c = 'k' ∨ c = 'K' ∨ c = 'm' ∨ c = 'M') →
      ∃ n : ℤ, safe_int_enhanced (.str (s ++ [c])) = some n ∧ n < 0) ∧
    (∀ (s : Str) (n : ℤ),
      endsWithChar (trimWs (pyLower s)) 'k' = false →
      endsWithChar (trimWs (pyLower s)) 'm' = false →
      safe_int_enhanced (.str s) = some n → 0 ≤ n) := by
  refine ⟨fun _ => rfl, fun _ => rfl, fun q hq => truncRat_neg_of_le_neg_one hq,
    fun q h1 h2 => truncRat_eq_zero_of_neg_frac h1 h2, fun _ => rfl, ?_,
    fun _ _ hk hm h => safe_int_enhanced_plain_nonneg hk hm h⟩
  intro s q c hdec hq hsuf
  have hc' : lowerChar c = 'k' ∨ lowerChar c = 'm' := by
    rcases hsuf with h | h | h | h <;> subst h <;>
      first
      | exact Or.inl (by decide)
      | exact Or.inr (by decide)
  refine ⟨truncRat (q * (if lowerChar c = 'k' then 1000 else 1000000)),
    safe_int_enhanced_suffix_core s q c hdec hc', ?_⟩
  apply truncRat_neg_of_le_neg_one
  split
  · linarith
  · linarith

/-- C4 witness: via `c4_sign_behaviour`, `"-42"` normalizes to 42 (a
non-negative value), the `k`-suffixed `"-2k"` yields a negative integer, and
the floats `-1/2` and `-3/2` truncate to `0` and to a negative integer. -/
theorem c4_sign_behaviour_witness :
    safe_int_enhanced (.str (S "-42")) = some 42 ∧ (0 : ℤ) ≤ 42 ∧
    (∃ n : ℤ, safe_int_enhanced (.str (S "-2" ++ ['k'])) = some n ∧ n < 0) ∧
    truncRat (-1/2) = 0 ∧ truncRat (-3/2) < 0 :=
  ⟨by decide,
   c4_sign_behaviour.2.2.2.2.2.2 (S "-42") 42 (by decide) (by decide) (by decide),
   c4_sign_behaviour.2.2.2.2.2.1 (S "-2") (-2) 'k' (by decide) (by norm_num)
     (Or.inl rfl),
   c4_sign_behaviour.2.2.2.1 (-1/2) (by norm_num) (by norm_num),
   c4_sign_behaviour.2.2.1 (-3/2) (by norm_num)⟩

/-- C5 counterexample: a model reply with `has_metrics = false` that still
carries a post and a follower count is passed through the validator with the
post and the aggregate intact — the returned record violates the claimed
invariant. -/
theorem c5_counterexample :
    (extract_metrics_from_text nowSample (S "100 likes") (S "alice") none
      (.ok dC5)).has_metrics = false ∧
    (extract_metrics_from_text nowSample (S "100 likes") (S "alice") none
      (.ok dC5)).recent_posts ≠ some [] ∧
    (extract_metrics_from_text nowSample (S "100 likes") (S "alice") none
      (.ok dC5)).followers_count = PyVal.int 500 := by
  refine ⟨by decide, by decide, by decide⟩

/-- C5 (amended): every record produced through the empty-response path — the
prefilter finding no signal, or the model call failing to parse — has
`has_metrics = false`, an empty `recent_posts` and all aggregates absent. -/
theorem c5_empty_invariant (now : Date) (text username : Str)
    (nameOracle : Option Str) (reply : ModelReply)
    (h : quick_metrics_check text = false ∨ reply = .failure) :
    (extract_metrics_from_text now text username nameOracle reply).has_metrics
        = false ∧
    (extract_metrics_from_text now text username nameOracle reply).recent_posts
        = some [] ∧
    (extract_metrics_from_text now text username nameOracle reply).followers_count
        = PyVal.none ∧
    (extract_metrics_from_text now text username nameOracle reply).following_count
        = PyVal.none ∧
    (extract_metrics_from_text now text username nameOracle reply).posts_count
        = PyVal.none ∧
    (extract_metrics_from_text now text username nameOracle reply).avg_likes_per_post
        = PyVal.none ∧
    (extract_metrics_from_text now text username nameOracle reply).avg_comments_per_post
        = PyVal.none ∧
    (extract_metrics_from_text now text username nameOracle reply).engagement_rate
        = PyVal.none := by
  unfold extract_metrics_from_text
  rcases h with h | h
  · rw [h]
    exact ⟨rfl, rfl, rfl, rfl, rfl, rfl, rfl, rfl⟩
  · subst h
    by_cases hq : quick_metrics_check text
    · rw [hq]
      exact ⟨rfl, rfl, rfl, rfl, rfl, rfl, rfl, rfl⟩
    · rw [Bool.not_eq_true] at hq
      rw [hq]
      exact ⟨rfl, rfl, rfl, rfl, rfl, rfl, rfl, rfl⟩

/-- C5 witness: a text without any metric signal takes the empty path, via
`c5_empty_invariant`. -/
theorem c5_empty_invariant_witness :
    (extract_metrics_from_text nowSample (S "hello") (S "alice") none
      (.ok dC5)).has_metrics = false ∧
    (extract_metrics_from_text nowSample (S "hello") (S "alice") none
      (.ok dC5)).recent_posts = some [] ∧
    (extract_metrics_from_text nowSample (S "hello") (S "alice") none
      (.ok dC5)).followers_count = PyVal.none ∧
    (extract_metrics_from_text nowSample (S "hello") (S "alice") none
      (.ok dC5)).following_count = PyVal.none ∧
    (extract_metrics_from_text nowSample (S "hello") (S "alice") none
      (.ok dC5)).posts_count = PyVal.none ∧
    (extract_metrics_from_text nowSample (S "hello") (S "alice") none
      (.ok dC5)).avg_likes_per_post = PyVal.none ∧
    (extract_metrics_from_text nowSample (S "hello") (S "alice") none
      (.ok dC5)).avg_comments_per_post = PyVal.none ∧
    (extract_metrics_from_text nowSample (S "hello") (S "alice") none
      (.ok dC5)).engagement_rate = PyVal.none :=
  c5_empty_invariant nowSample (S "hello") (S "alice") none (.ok dC5)
    (Or.inl (by decide))

/-- C6 (code bug): on the bare text `"1,250"` the prefilter returns false,
although the thousands-grouped regex it carries — and its own comment,
`Formatted numbers like 1,250` — would match it.  Every indicator of
`_quick_metrics_check`, the two regex patterns included, is a plain `str`, so
`isinstance(indicator, str)` is true for all of them and the `re.search`
branch is dead code: the patterns are only ever tested as literal substrings,
which `"1,250"` does not contain. -/
theorem c6_prefilter_dead_regex :
    quick_metrics_check (S "1,250") = false ∧
    r2Match (pyLower (S "1,250")) = true :=
  ⟨by decide, by decide⟩

/-- C7 counterexample: the empty JSON object `"\x7b\x7d"` parses on its own,
but wrapped in brace-free prose the fallback regex `(\x7b[\s\S]+\x7d)` cannot
match it (it requires a character between the braces), so the parse stage
returns the error dict instead of the same record. -/
theorem c7_counterexample :
    loads (S "\x7b\x7d") = some (Json.obj []) ∧
    parse_model_reply (S "\x7b\x7d") = Json.obj [] ∧
    parse_model_reply (S "Sure, here it is: \x7b\x7d Hope this helps!") =
      errDict (S "Sure, here it is: \x7b\x7d Hope this helps!") ∧
    errDict (S "Sure, here it is: \x7b\x7d Hope this helps!") ≠ Json.obj [] := by
  refine ⟨rfl, rfl, rfl, ?_⟩
  simp [errDict]

/-- C7 (amended): a JSON object of at least one character between its braces,
wrapped in prose with no opening brace before it and no closing brace after
it, parses through the fallback to the same record as the bare object alone
(whenever the direct parse of the wrapped reply fails). -/
theorem c7_prose_wrapped_parse (p1 p2 mid : Str) (j : Json)
    (h1 : ∀ c ∈ p1, c ≠ lbrace ∧ c ≠ rbrace)
    (h2 : ∀ c ∈ p2, c ≠ lbrace ∧ c ≠ rbrace)
    (hmid : mid ≠ [])
    (hwhole : loads (p1 ++ (lbrace :: (mid ++ [rbrace])) ++ p2) = none)
    (hobj : loads (lbrace :: (mid ++ [rbrace])) = some j) :
    parse_model_reply (p1 ++ (lbrace :: (mid ++ [rbrace])) ++ p2) = j ∧
    parse_model_reply (lbrace :: (mid ++ [rbrace])) = j := by
  constructor
  · unfold parse_model_reply extract_json_block
    simp only [hwhole, extract_json_search_wrap (fun c hc => (h1 c hc).1)
      (fun c hc => (h2 c hc).2) hmid, hobj]
  · unfold parse_model_reply
    simp only [hobj]

/-- C7 witness: the object `\x7b"a": null\x7d` wrapped in the claim's example
prose parses to the same record as the bare object, via
`c7_prose_wrapped_parse`. -/
theorem c7_prose_wrapped_parse_witness :
    parse_model_reply (S "Sure, here it is: " ++
        (lbrace :: (S "\x22a\x22: null" ++ [rbrace])) ++ S " Hope this helps!") =
      Json.obj [(S "a", Json.null)] ∧
    parse_model_reply (lbrace :: (S "\x22a\x22: null" ++ [rbrace])) =
      Json.obj [(S "a", Json.null)] :=
  c7_prose_wrapped_parse (S "Sure, here it is: ") (S " Hope this helps!")
    (S "\x22a\x22: null") (Json.obj [(S "a", Json.null)])
    (by decide) (by decide) (by decide) rfl rfl

/-- C8 counterexample: a model-supplied `data_quality_score` of 5 is kept
verbatim by the validator — it is not clamped into `[0, 1]`. -/
theorem c8_counterexample :
    (validate_and_clean_metrics_enhanced nowSample dC8 (S "alice")).data_quality_score
      = some (PyVal.float 5) ∧ ¬((5 : ℚ) ≤ 1) := by
  refine ⟨by decide, by norm_num⟩

/-- C8 (amended): model-supplied `data_quality_score` and
`extraction_confidence` are kept verbatim (no clamping); when the key is
absent they default to 0.5, and `data_source_reliability` defaults to
`medium`. -/
theorem c8_quality_defaults (now : Date) (d : RawData) (u : Str) :
    (validate_and_clean_metrics_enhanced now d u).data_quality_score =
      some (d.data_quality_score.getD (.float (1/2))) ∧
    (validate_and_clean_metrics_enhanced now d u).extraction_confidence =
      some (d.extraction_confidence.getD (.float (1/2))) ∧
    (validate_and_clean_metrics_enhanced now d u).data_source_reliability =
      some (d.data_source_reliability.getD (S "medium")) :=
  ⟨rfl, rfl, rfl⟩

/-- C9: the field normalizer is idempotent — applying
`_validate_and_clean_metrics_enhanced` to its own output returns a record
identical to that output; in particular already-scaled integers are never
rescaled and synthesized ids, URLs, media types and dates are left unchanged
(today being a valid calendar date). -/
theorem c9_validator_idempotent (now : Date) (d : RawData) (u : Str)
    (hnow : validDateB now = true) :
    validate_and_clean_metrics_enhanced now
        (validate_and_clean_metrics_enhanced now d u) u =
      validate_and_clean_metrics_enhanced now d u :=
  validate_and_clean_idem hnow d u

/-- C9 witness: a record with a `"2k"` likes string and a comma-grouped
follower count is normalized once and then fixed, via
`c9_validator_idempotent`. -/
theorem c9_validator_idempotent_witness :
    validDateB nowSample = true ∧
    validate_and_clean_metrics_enhanced nowSample
        (validate_and_clean_metrics_enhanced nowSample dC9 (S "alice")) (S "alice") =
      validate_and_clean_metrics_enhanced nowSample dC9 (S "alice") :=
  ⟨by decide, c9_validator_idempotent nowSample dC9 (S "alice") (by decide)⟩

/-- C10: when the intent-classification call fails with any exception, the
returned default classification has `contains_metrics = false`, so
`process_influencer_message` never invokes the metrics extraction and the
result's `metrics_data` stays `None`. -/
theorem c10_classify_failure_no_metrics (now : Date) (text username : Str)
    (nameOracle : Option Str) (reply : ModelReply) :
    (classify_message_intent .failure).contains_metrics = some false ∧
    (process_influencer_message now text username .failure nameOracle
      reply).metrics_data = none :=
  ⟨rfl, rfl⟩

end Pipeline















